import Mathlib

/-!
# Verification of the `core_game` deterministic RTS simulation core

A shallow embedding of `crates/core_game/src/gameplay.rs` over exact rational
arithmetic.  2D vectors are pairs of rationals; the game's `f32` values are
idealised as `ℚ`.  Comparisons of Euclidean distances against constant radii
(`d ≤ r`, `d < r`) are embedded as the algebraically equivalent comparisons of
squared distances (`d² ≤ r²`, `d² < r²`), which are exact over `ℚ`.

External library functions that are irrational over `ℚ` (`Vec2::normalize`,
`Vec2::clamp_length_max`, `cos`, `sin`) are passed as explicit function
parameters; where a theorem needs a property of such a function it is stated
as a hypothesis expressing the function's documented contract.

The RNG (`StdRng`) is modelled as a stream `Nat → ℚ` of raw uniform samples
together with a cursor; `gen_f32(lo..=hi)` consumes one sample `u` and yields
`lo + u * (hi - lo)` (uniform in `[lo, hi]` when `u ∈ [0, 1]`).
-/

namespace CoreGame

/-- 2D vector over exact rationals (idealised `Vec2`). -/
abbrev Vec2 : Type := ℚ × ℚ

/-- Component-wise vector addition. -/
def vadd (a b : Vec2) : Vec2 := (a.1 + b.1, a.2 + b.2)

/-- Component-wise vector subtraction. -/
def vsub (a b : Vec2) : Vec2 := (a.1 - b.1, a.2 - b.2)

/-- Scalar multiplication. -/
def smul (c : ℚ) (v : Vec2) : Vec2 := (c * v.1, c * v.2)

/-- Squared Euclidean norm (`Vec2::length_squared`). -/
def norm2 (v : Vec2) : ℚ := v.1 ^ 2 + v.2 ^ 2

/-- Squared Euclidean distance (`Vec2::distance_squared`). -/
def dist2 (a b : Vec2) : ℚ := norm2 (vsub a b)

theorem norm2_nonneg (v : Vec2) : 0 ≤ norm2 v := by
  have h1 : (0 : ℚ) ≤ v.1 ^ 2 := sq_nonneg _
  have h2 : (0 : ℚ) ≤ v.2 ^ 2 := sq_nonneg _
  simpa [norm2] using add_nonneg h1 h2

theorem dist2_nonneg (a b : Vec2) : 0 ≤ dist2 a b := norm2_nonneg _

/-! ## Constants (from the `const` block of `gameplay.rs`) -/

def DEFAULT_SEED : Nat := 42
def DEFAULT_FIXED_DELTA : ℚ := 1 / 30
def DEFAULT_BOARD_SIZE : ℚ := 1600
def DEFAULT_PLAYER_COUNT : Nat := 4
def DEFAULT_SPAWN_INTERVAL : ℚ := 1
def MIN_PLAYERS : Nat := 2
def MAX_PLAYERS : Nat := 8
def UNIT_SPEED : ℚ := 120
def UNIT_SEPARATION_RADIUS : ℚ := 40
def SEPARATION_FORCE : ℚ := 60
def FORMATION_SPACING : ℚ := 60
def LASER_RANGE : ℚ := 260
def LASER_DAMAGE : ℚ := 6
def LASER_COOLDOWN : ℚ := 7 / 10
def LASER_HEAL_RANGE : ℚ := 150
def SUPPORT_HEAL_PER_SECOND : ℚ := 1
def SUPPORT_DAMAGE_BONUS : ℚ := 5 / 100
def PYLON_COUNT : Nat := 3
def PYLON_RADIUS : ℚ := 180
def PYLON_DAMAGE_BONUS : ℚ := 4 / 100
def PYLON_GRAVITY : ℚ := 18000
def PYLON_MAX_SPEED : ℚ := 240

/-! ## Configuration construction (C2)

`SimulationParams::from_env` and `BoardSettings::from_env` read environment
variables; the embedding takes the parsed lookup results as arguments
(`none` stands for "variable unset or unparsable").  Note that the Rust
functions are total: there is no error path. -/

structure SimulationParams where
  seed : Nat
  fixed_delta : ℚ
deriving DecidableEq, Repr

structure BoardSettings where
  board_size : ℚ
  player_count : Nat
  spawn_interval : ℚ
deriving DecidableEq, Repr

/-- `SimulationParams::from_env`: each field falls back to its default; no
validation of `fixed_delta` is performed. -/
def SimulationParams.from_env (seedVar : Option Nat) (fixedDeltaVar : Option ℚ) :
    SimulationParams :=
  { seed := seedVar.getD DEFAULT_SEED
    fixed_delta := fixedDeltaVar.getD DEFAULT_FIXED_DELTA }

/-- Rust's `usize::clamp(lo, hi)`. -/
def natClamp (x lo hi : Nat) : Nat := min (max x lo) hi

/-- `BoardSettings::from_env`: the player count defaults from the scene hint,
is then clamped into `[MIN_PLAYERS, MAX_PLAYERS]`; `board_size` and
`spawn_interval` are taken as parsed with no validation. -/
def BoardSettings.from_env (sceneHint : String) (playerCountVar : Option Nat)
    (boardSizeVar : Option ℚ) (spawnIntervalVar : Option ℚ) : BoardSettings :=
  let base := playerCountVar.getD
    (if sceneHint = "rts_board" then DEFAULT_PLAYER_COUNT else MIN_PLAYERS)
  { board_size := boardSizeVar.getD DEFAULT_BOARD_SIZE
    player_count := natClamp base MIN_PLAYERS MAX_PLAYERS
    spawn_interval := spawnIntervalVar.getD DEFAULT_SPAWN_INTERVAL }

/-- C2 counterexample: construction does **not** fail on bad configuration.
A spawn interval of `0` together with an out-of-range `player_count = 100`
is accepted: the player count is silently clamped to `8` and the zero spawn
interval is stored unchanged.  (The Rust constructors are total functions
with no error path, so "construction fails" is false.) -/
theorem config_rejection_counterexample :
    BoardSettings.from_env "" (some 100) none (some 0) =
      { board_size := 1600, player_count := 8, spawn_interval := 0 } ∧
    SimulationParams.from_env none (some (-5)) =
      { seed := 42, fixed_delta := -5 } := by
  constructor <;> rfl

/-- C2 (amended): construction never fails; `player_count` is clamped into
`[2, 8]`, while `spawn_interval` and `fixed_delta` are stored exactly as
parsed (including `0` and negative values), falling back to the defaults
`1` and `1/30` when absent. -/
theorem config_construction_total (sceneHint : String) (pcVar : Option Nat)
    (bsVar : Option ℚ) (siVar : Option ℚ) (sdVar : Option Nat) (fdVar : Option ℚ) :
    MIN_PLAYERS ≤ (BoardSettings.from_env sceneHint pcVar bsVar siVar).player_count ∧
    (BoardSettings.from_env sceneHint pcVar bsVar siVar).player_count ≤ MAX_PLAYERS ∧
    (∀ q : ℚ, siVar = some q →
      (BoardSettings.from_env sceneHint pcVar bsVar siVar).spawn_interval = q) ∧
    (siVar = none →
      (BoardSettings.from_env sceneHint pcVar bsVar siVar).spawn_interval = 1) ∧
    (∀ q : ℚ, fdVar = some q →
      (SimulationParams.from_env sdVar fdVar).fixed_delta = q) ∧
    (fdVar = none → (SimulationParams.from_env sdVar fdVar).fixed_delta = 1 / 30) := by
  refine ⟨?_, ?_, ?_, ?_, ?_, ?_⟩
  · simp [BoardSettings.from_env, natClamp, MIN_PLAYERS, MAX_PLAYERS]
  · simp [BoardSettings.from_env, natClamp, MIN_PLAYERS, MAX_PLAYERS]
  · intro q hq
    simp [BoardSettings.from_env, hq]
  · intro hq
    simp [BoardSettings.from_env, hq, DEFAULT_SPAWN_INTERVAL]
  · intro q hq
    simp [SimulationParams.from_env, hq]
  · intro hq
    simp [SimulationParams.from_env, hq, DEFAULT_FIXED_DELTA]

/-- Witness for `config_construction_total` at concrete inputs. -/
theorem config_construction_total_witness :
    MIN_PLAYERS ≤ (BoardSettings.from_env "" (some 100) none (some 0)).player_count ∧
    (BoardSettings.from_env "" (some 100) none (some 0)).player_count ≤ MAX_PLAYERS ∧
    (∀ q : ℚ, (some (0 : ℚ)) = some q →
      (BoardSettings.from_env "" (some 100) none (some 0)).spawn_interval = q) ∧
    ((some (0 : ℚ)) = none →
      (BoardSettings.from_env "" (some 100) none (some 0)).spawn_interval = 1) ∧
    (∀ q : ℚ, (some (-5 : ℚ)) = some q →
      (SimulationParams.from_env none (some (-5))).fixed_delta = q) ∧
    ((some (-5 : ℚ)) = none →
      (SimulationParams.from_env none (some (-5))).fixed_delta = 1 / 30) :=
  config_construction_total "" (some 100) none (some 0) none (some (-5))

/-! ## Formation offsets (C8)

`compute_formation_offsets` produces `Vec2::from_angle(angle) * (ring * 60)`
values; since `from_angle` is `(cos, sin)`, an offset is embedded in polar
form: a radius and the angle expressed as a fraction of a full turn
(`angle = turns * TAU`).  `Vec2::ZERO` is the polar pair `(0, 0)`. -/

structure PolarOffset where
  radius : ℚ
  turns : ℚ
deriving DecidableEq, Repr

/-- All `6 * ring` evenly spaced slots of one ring (spec-side description). -/
def fullRing (ring : Nat) : List PolarOffset :=
  (List.range (6 * ring)).map fun (idx : Nat) =>
    ⟨(ring : ℚ) * FORMATION_SPACING, (idx : ℚ) / ((6 * ring : Nat) : ℚ)⟩

/-- The inner `for idx in 0..slots` loop of `compute_formation_offsets`,
which breaks as soon as `generated == count`: it emits the first
`min (6 * ring) remaining` slots of the ring. -/
def ringSlice (ring remaining : Nat) : List PolarOffset :=
  (List.range (min (6 * ring) remaining)).map fun (idx : Nat) =>
    ⟨(ring : ℚ) * FORMATION_SPACING, (idx : ℚ) / ((6 * ring : Nat) : ℚ)⟩

/-- The `while generated < count` loop of `compute_formation_offsets`.
Each iteration with `generated < count` appends at least one offset, so
`count` units of fuel always suffice. -/
def buildRings : Nat → Nat → Nat → Nat → List PolarOffset
  | 0, _, _, _ => []
  | fuel + 1, count, generated, ring =>
    if generated < count then
      let slots := ringSlice ring (count - generated)
      slots ++ buildRings fuel count (generated + slots.length) (ring + 1)
    else []

/-- `compute_formation_offsets` from `gameplay.rs`: `(0,0)` first, then rings
`1, 2, …` of `6 * ring` evenly spaced offsets at radius `ring * 60`, until
`count` offsets exist. -/
def compute_formation_offsets (count : Nat) : List PolarOffset :=
  if count = 0 then [] else ⟨0, 0⟩ :: buildRings count count 1 1

/-- Spec-side: the concatenation of the complete rings `ring, ring+1, …`
(`fuel` of them). -/
def ringsFrom : Nat → Nat → List PolarOffset
  | 0, _ => []
  | f + 1, ring => fullRing ring ++ ringsFrom f (ring + 1)

/-- Spec-side: the full formation table `(0,0)` followed by complete rings
`1, 2, …, rings`. -/
def formationTable (rings : Nat) : List PolarOffset :=
  ⟨0, 0⟩ :: ringsFrom rings 1

theorem fullRing_length (ring : Nat) : (fullRing ring).length = 6 * ring := by
  simp [fullRing]

theorem ringSlice_eq_take (ring remaining : Nat) :
    ringSlice ring remaining = (fullRing ring).take remaining := by
  unfold ringSlice fullRing
  rw [← List.map_take, List.take_range, Nat.min_comm remaining (6 * ring)]

theorem buildRings_eq_take (fuel : Nat) :
    ∀ count generated ring,
      buildRings fuel count generated ring =
        (ringsFrom fuel ring).take (count - generated) := by
  induction fuel with
  | zero => intro count generated ring; simp [buildRings, ringsFrom]
  | succ f ih =>
    intro count generated ring
    by_cases h : generated < count
    · have hslice := ringSlice_eq_take ring (count - generated)
      simp only [buildRings, ringsFrom, if_pos h, hslice, ih,
        List.take_append_eq_append_take]
      congr 1
      have hlen : ((fullRing ring).take (count - generated)).length =
          min (count - generated) (6 * ring) := by
        simp [fullRing_length]
      rw [hlen, fullRing_length]
      congr 1
      omega
    · have hz : count - generated = 0 := by omega
      simp [buildRings, if_neg h, hz]

theorem ringsFrom_length_ge (fuel : Nat) :
    ∀ ring, 1 ≤ ring → 6 * fuel ≤ (ringsFrom fuel ring).length := by
  induction fuel with
  | zero => intro ring _; simp [ringsFrom]
  | succ f ih =>
    intro ring hring
    have h := ih (ring + 1) (by omega)
    simp only [ringsFrom, List.length_append, fullRing_length]
    omega

theorem ringsFrom_radius (fuel : Nat) :
    ∀ ring, ∀ o ∈ ringsFrom fuel ring, ∃ k : ℕ, ring ≤ k ∧ o.radius = 60 * k := by
  induction fuel with
  | zero => intro ring o ho; simp [ringsFrom] at ho
  | succ f ih =>
    intro ring o ho
    simp only [ringsFrom, List.mem_append] at ho
    rcases ho with ho | ho
    · refine ⟨ring, le_refl _, ?_⟩
      simp only [fullRing, List.mem_map] at ho
      obtain ⟨idx, _, rfl⟩ := ho
      simp [FORMATION_SPACING, mul_comm]
    · obtain ⟨k, hk, hrad⟩ := ih (ring + 1) o ho
      exact ⟨k, by omega, hrad⟩

theorem ringsFrom_radius_sorted (fuel : Nat) :
    ∀ ring, List.Sorted (· ≤ ·) ((ringsFrom fuel ring).map PolarOffset.radius) := by
  induction fuel with
  | zero => intro ring; simp [ringsFrom, List.Sorted]
  | succ f ih =>
    intro ring
    simp only [ringsFrom, List.map_append]
    refine List.pairwise_append.mpr ⟨?_, ih (ring + 1), ?_⟩
    · unfold fullRing
      rw [List.map_map]
      exact List.pairwise_map.mpr
        ((List.pairwise_le_range _).imp (fun _ => le_refl _))
    · intro a ha b hb
      simp only [List.mem_map] at ha hb
      obtain ⟨oa, hoa, rfl⟩ := ha
      obtain ⟨ob, hob, rfl⟩ := hb
      obtain ⟨k, hk, hrad⟩ := ringsFrom_radius f (ring + 1) ob hob
      simp only [fullRing, List.mem_map] at hoa
      obtain ⟨idx, _, rfl⟩ := hoa
      rw [hrad]
      have hq : ((ring : ℚ)) ≤ (k : ℚ) := by exact_mod_cast by omega
      show (ring : ℚ) * FORMATION_SPACING ≤ 60 * (k : ℚ)
      simp only [FORMATION_SPACING]
      nlinarith

/-- C8: for every `n ≥ 1`, `compute_formation_offsets n` (a function of `n`
alone) has exactly `n` offsets; the first is `(0,0)`; the whole output is the
`n`-element prefix of the table `(0,0)` followed by rings `1, 2, …` of
`6 * ring` evenly spaced offsets at radius `ring * 60`; every radius is a
multiple of `60`; the radii are monotone along the output; and each complete
ring `r ≥ 1` has exactly `6 * r` slots at radius `60 * r`, strictly below the
next ring's radius. -/
theorem formation_offsets_spec (n : Nat) (hn : 1 ≤ n) :
    (compute_formation_offsets n).length = n ∧
    (compute_formation_offsets n).head? = some ⟨0, 0⟩ ∧
    compute_formation_offsets n = (formationTable n).take n ∧
    (∀ o ∈ compute_formation_offsets n, ∃ k : ℕ, o.radius = 60 * k) ∧
    List.Sorted (· ≤ ·) ((compute_formation_offsets n).map PolarOffset.radius) ∧
    (∀ r : ℕ, 1 ≤ r →
      (∀ o ∈ fullRing r, o.radius = 60 * r) ∧ (fullRing r).length = 6 * r ∧
      (60 : ℚ) * r < 60 * (r + 1)) := by
  have hne : n ≠ 0 := by omega
  have hmain : compute_formation_offsets n = (formationTable n).take n := by
    unfold compute_formation_offsets formationTable
    rw [if_neg hne, buildRings_eq_take]
    cases n with
    | zero => omega
    | succ m => simp [List.take_succ_cons]
  have hlen : (compute_formation_offsets n).length = n := by
    rw [hmain]
    simp only [List.length_take, formationTable, List.length_cons]
    have := ringsFrom_length_ge n 1 (le_refl _)
    omega
  refine ⟨hlen, ?_, hmain, ?_, ?_, ?_⟩
  · rw [hmain]
    unfold formationTable
    cases n with
    | zero => omega
    | succ m => simp
  · intro o ho
    rw [hmain] at ho
    have ho' : o ∈ formationTable n := List.mem_of_mem_take ho
    unfold formationTable at ho'
    rcases List.mem_cons.mp ho' with rfl | ho'
    · exact ⟨0, by norm_num⟩
    · obtain ⟨k, _, hrad⟩ := ringsFrom_radius n 1 o ho'
      exact ⟨k, hrad⟩
  · rw [hmain]
    have hsorted : List.Sorted (· ≤ ·) ((formationTable n).map PolarOffset.radius) := by
      unfold formationTable
      simp only [List.map_cons]
      rw [List.sorted_cons]
      refine ⟨?_, ringsFrom_radius_sorted n 1⟩
      intro b hb
      simp only [List.mem_map] at hb
      obtain ⟨o, ho, rfl⟩ := hb
      obtain ⟨k, _, hrad⟩ := ringsFrom_radius n 1 o ho
      rw [hrad]
      positivity
    have hsub : List.Sublist (((formationTable n).take n).map PolarOffset.radius)
        ((formationTable n).map PolarOffset.radius) := by
      rw [List.map_take]
      exact List.take_sublist _ _
    exact List.Pairwise.sublist hsub hsorted
  · intro r hr
    refine ⟨?_, fullRing_length r, by linarith⟩
    intro o ho
    simp only [fullRing, List.mem_map] at ho
    obtain ⟨idx, _, rfl⟩ := ho
    simp [FORMATION_SPACING, mul_comm]

/-- Witness for `formation_offsets_spec` at `n = 7` (scenario S4 of the
spec: `(0,0)` followed by the six slots of ring 1). -/
theorem formation_offsets_spec_witness :
    (compute_formation_offsets 7).length = 7 ∧
    (compute_formation_offsets 7).head? = some ⟨0, 0⟩ ∧
    compute_formation_offsets 7 = (formationTable 7).take 7 ∧
    (∀ o ∈ compute_formation_offsets 7, ∃ k : ℕ, o.radius = 60 * k) ∧
    List.Sorted (· ≤ ·) ((compute_formation_offsets 7).map PolarOffset.radius) ∧
    (∀ r : ℕ, 1 ≤ r →
      (∀ o ∈ fullRing r, o.radius = 60 * r) ∧ (fullRing r).length = 6 * r ∧
      (60 : ℚ) * r < 60 * (r + 1)) :=
  formation_offsets_spec 7 (by norm_num)

/-! ## Pairwise separation (C10) — `update_unit_rally_targets`

The source compares `offset.length()` with `0.1` and `UNIT_SEPARATION_RADIUS`;
both are embedded as the equivalent squared comparisons (`d > 0.1 ∧ d < 40` ⟺
`d² > 1/100 ∧ d² < 1600` for the non-negative Euclidean length).  The library
functions `Vec2::normalize`, `Vec2::length` and `Vec2::clamp_length_max` /
`Vec2::normalize_or_zero`, which are irrational over `ℚ`, are passed as
parameters. -/

structure SepUnit where
  id : Nat
  player : Nat
  pos : Vec2
  rally_target : Vec2
  velocity : Vec2
deriving DecidableEq, Repr

/-- Pre-pass snapshot `(entity, player, position)` collected by the system. -/
def sepSnapshot (units : List SepUnit) : List (Nat × Nat × Vec2) :=
  units.map fun u => (u.id, u.player, u.pos)

/-- The `push` vector accumulated over all other same-player units at
distance strictly between `0.1` and `UNIT_SEPARATION_RADIUS`. -/
def sepPush (vnormalize : Vec2 → Vec2) (vlen : Vec2 → ℚ)
    (positions : List (Nat × Nat × Vec2)) (selfId selfPlayer : Nat)
    (selfPos : Vec2) : Vec2 :=
  positions.foldl
    (fun push other =>
      if selfId = other.1 ∨ selfPlayer ≠ other.2.1 then push
      else
        let offset := vsub selfPos other.2.2
        if 1 / 100 < norm2 offset ∧ norm2 offset < UNIT_SEPARATION_RADIUS ^ 2 then
          vadd push
            (smul ((UNIT_SEPARATION_RADIUS - vlen offset) / UNIT_SEPARATION_RADIUS)
              (vnormalize offset))
        else push)
    (0, 0)

/-- Body of the `for (entity, mut unit, transform)` write loop: when the push
is non-zero, nudge the rally target by `5 * push_dir` and add a clamped
velocity impulse; otherwise leave the unit untouched. -/
def sepUpdateUnit (vnormalize vnormalizeOrZero : Vec2 → Vec2) (vlen : Vec2 → ℚ)
    (vclampLen : Vec2 → ℚ → Vec2) (positions : List (Nat × Nat × Vec2))
    (u : SepUnit) : SepUnit :=
  let push := sepPush vnormalize vlen positions u.id u.player u.pos
  if 0 < norm2 push then
    let pushDir := vnormalizeOrZero push
    { u with
        rally_target := vadd u.rally_target (smul 5 pushDir)
        velocity :=
          vclampLen (vadd u.velocity (smul SEPARATION_FORCE pushDir))
            (UNIT_SPEED * (3 / 2)) }
  else u

/-- `update_unit_rally_targets`: snapshot all positions, then update every
unit against that pre-pass snapshot. -/
def update_unit_rally_targets (vnormalize vnormalizeOrZero : Vec2 → Vec2)
    (vlen : Vec2 → ℚ) (vclampLen : Vec2 → ℚ → Vec2)
    (units : List SepUnit) : List SepUnit :=
  units.map (sepUpdateUnit vnormalize vnormalizeOrZero vlen vclampLen (sepSnapshot units))

theorem sepPush_eq_zero (vnormalize : Vec2 → Vec2) (vlen : Vec2 → ℚ)
    (positions : List (Nat × Nat × Vec2)) (selfId selfPlayer : Nat) (selfPos : Vec2)
    (h : ∀ p ∈ positions, selfId ≠ p.1 → selfPlayer = p.2.1 →
      ¬(1 / 100 < norm2 (vsub selfPos p.2.2) ∧
        norm2 (vsub selfPos p.2.2) < UNIT_SEPARATION_RADIUS ^ 2)) :
    sepPush vnormalize vlen positions selfId selfPlayer selfPos = (0, 0) := by
  unfold sepPush
  suffices hgen : ∀ acc : Vec2, positions.foldl
      (fun push other =>
        if selfId = other.1 ∨ selfPlayer ≠ other.2.1 then push
        else
          let offset := vsub selfPos other.2.2
          if 1 / 100 < norm2 offset ∧ norm2 offset < UNIT_SEPARATION_RADIUS ^ 2 then
            vadd push
              (smul ((UNIT_SEPARATION_RADIUS - vlen offset) / UNIT_SEPARATION_RADIUS)
                (vnormalize offset))
          else push)
      acc = acc by
    exact hgen (0, 0)
  induction positions with
  | nil => intro acc; rfl
  | cons p rest ih =>
    intro acc
    have hp := h p (List.mem_cons_self p rest)
    have hrest : ∀ q ∈ rest, selfId ≠ q.1 → selfPlayer = q.2.1 →
        ¬(1 / 100 < norm2 (vsub selfPos q.2.2) ∧
          norm2 (vsub selfPos q.2.2) < UNIT_SEPARATION_RADIUS ^ 2) := by
      intro q hq
      exact h q (List.mem_cons_of_mem p hq)
    simp only [List.foldl_cons]
    by_cases hskip : selfId = p.1 ∨ selfPlayer ≠ p.2.1
    · rw [if_pos hskip]
      exact ih hrest acc
    · rw [if_neg hskip]
      push_neg at hskip
      have hcond := hp hskip.1 hskip.2
      simp only [if_neg hcond]
      exact ih hrest acc

/-- C10: a unit with no other same-player unit at snapshot distance `d` with
`0.1 < d < 40` is left completely unchanged by the separation pass (rally
target, velocity and position), for every choice of the library vector
functions; and the pass is exactly the per-unit update mapped over the
pre-pass snapshot. -/
theorem separation_noop (vnormalize vnormalizeOrZero : Vec2 → Vec2)
    (vlen : Vec2 → ℚ) (vclampLen : Vec2 → ℚ → Vec2)
    (units : List SepUnit) (u : SepUnit)
    (hiso : ∀ v ∈ units, u.id ≠ v.id → u.player = v.player →
      ¬(1 / 100 < dist2 u.pos v.pos ∧ dist2 u.pos v.pos < UNIT_SEPARATION_RADIUS ^ 2)) :
    sepUpdateUnit vnormalize vnormalizeOrZero vlen vclampLen (sepSnapshot units) u = u ∧
    update_unit_rally_targets vnormalize vnormalizeOrZero vlen vclampLen units =
      units.map
        (sepUpdateUnit vnormalize vnormalizeOrZero vlen vclampLen (sepSnapshot units)) := by
  constructor
  · have hzero : sepPush vnormalize vlen (sepSnapshot units) u.id u.player u.pos = (0, 0) := by
      apply sepPush_eq_zero
      intro p hp hne hpl
      simp only [sepSnapshot, List.mem_map] at hp
      obtain ⟨v, hv, rfl⟩ := hp
      exact hiso v hv hne hpl
    unfold sepUpdateUnit
    rw [hzero]
    have : ¬(0 < norm2 ((0 : ℚ), (0 : ℚ))) := by simp [norm2]
    rw [if_neg this]
  · rfl

/-- Witness for `separation_noop`: a lone unit is untouched. -/
theorem separation_noop_witness :
    (∀ v ∈ [SepUnit.mk 3 0 (0, 0) (1, 2) (3, 4)],
      (SepUnit.mk 3 0 (0, 0) (1, 2) (3, 4)).id ≠ v.id →
      (SepUnit.mk 3 0 (0, 0) (1, 2) (3, 4)).player = v.player →
      ¬(1 / 100 < dist2 (SepUnit.mk 3 0 (0, 0) (1, 2) (3, 4)).pos v.pos ∧
        dist2 (SepUnit.mk 3 0 (0, 0) (1, 2) (3, 4)).pos v.pos <
          UNIT_SEPARATION_RADIUS ^ 2)) ∧
    sepUpdateUnit id id (fun _ => 0) (fun v _ => v)
        (sepSnapshot [SepUnit.mk 3 0 (0, 0) (1, 2) (3, 4)])
        (SepUnit.mk 3 0 (0, 0) (1, 2) (3, 4)) =
      SepUnit.mk 3 0 (0, 0) (1, 2) (3, 4) ∧
    update_unit_rally_targets id id (fun _ => 0) (fun v _ => v)
        [SepUnit.mk 3 0 (0, 0) (1, 2) (3, 4)] =
      [SepUnit.mk 3 0 (0, 0) (1, 2) (3, 4)].map
        (sepUpdateUnit id id (fun _ => 0) (fun v _ => v)
          (sepSnapshot [SepUnit.mk 3 0 (0, 0) (1, 2) (3, 4)])) := by
  have hiso : ∀ v ∈ [SepUnit.mk 3 0 (0, 0) (1, 2) (3, 4)],
      (SepUnit.mk 3 0 (0, 0) (1, 2) (3, 4)).id ≠ v.id →
      (SepUnit.mk 3 0 (0, 0) (1, 2) (3, 4)).player = v.player →
      ¬(1 / 100 < dist2 (SepUnit.mk 3 0 (0, 0) (1, 2) (3, 4)).pos v.pos ∧
        dist2 (SepUnit.mk 3 0 (0, 0) (1, 2) (3, 4)).pos v.pos <
          UNIT_SEPARATION_RADIUS ^ 2) := by
    intro v hv hne
    simp only [List.mem_singleton] at hv
    subst hv
    exact absurd rfl hne
  obtain ⟨h1, h2⟩ := separation_noop id id (fun _ => 0) (fun v _ => v)
    [SepUnit.mk 3 0 (0, 0) (1, 2) (3, 4)] (SepUnit.mk 3 0 (0, 0) (1, 2) (3, 4)) hiso
  exact ⟨hiso, h1, h2⟩

/-! ## System schedules (C5) — `GameplayPlugin::build`

`build` adds the `FixedUpdate` systems as the tuple
`(tick_spawn_timers, move_units, update_unit_rally_targets,
unit_combat_system.after(move_units))` and the `Update` systems as
`(handle_selection_input, update_selection_visuals.after(handle_selection_input),
issue_move_orders.after(update_selection_visuals), update_beam_effects,
animate_pylons)`.  A tuple passed to `add_systems` carries **no** ordering by
itself; only the explicit `.after` edges constrain execution order.  A
schedule run executes each added system exactly once, in some order
satisfying the declared constraints. -/

inductive FixedSystem
  | tickSpawnTimers
  | moveUnits
  | updateUnitRallyTargets
  | unitCombatSystem
deriving DecidableEq, Repr

inductive UpdateSystem
  | handleSelectionInput
  | updateSelectionVisuals
  | issueMoveOrders
  | updateBeamEffects
  | animatePylons
deriving DecidableEq, Repr

/-- The systems added to `FixedUpdate` by `GameplayPlugin::build`. -/
def fixedUpdateSystems : List FixedSystem :=
  [.tickSpawnTimers, .moveUnits, .updateUnitRallyTargets, .unitCombatSystem]

/-- The only ordering edge declared on the `FixedUpdate` systems:
`unit_combat_system.after(move_units)`. -/
def fixedUpdateConstraints : List (FixedSystem × FixedSystem) :=
  [(.moveUnits, .unitCombatSystem)]

/-- The systems added to `Update` by `GameplayPlugin::build`. -/
def updateSystems : List UpdateSystem :=
  [.handleSelectionInput, .updateSelectionVisuals, .issueMoveOrders,
   .updateBeamEffects, .animatePylons]

/-- The ordering edges declared on the `Update` systems. -/
def updateConstraints : List (UpdateSystem × UpdateSystem) :=
  [(.handleSelectionInput, .updateSelectionVisuals),
   (.updateSelectionVisuals, .issueMoveOrders)]

/-- `order` is a possible execution order of one schedule run: every added
system exactly once, respecting every declared `.after` edge. -/
def IsScheduleRun {α : Type} [DecidableEq α] (systems : List α)
    (constraints : List (α × α)) (order : List α) : Prop :=
  order.length = systems.length ∧
  (∀ s ∈ systems, order.count s = 1) ∧
  ∀ c ∈ constraints, order.indexOf c.1 < order.indexOf c.2

instance {α : Type} [DecidableEq α] (systems : List α) (constraints : List (α × α))
    (order : List α) : Decidable (IsScheduleRun systems constraints order) := by
  unfold IsScheduleRun
  infer_instance

/-- C5 counterexample: the claimed fixed order (spawner, then movement, then
separation, then combat) is **not** forced by the code.  The execution order
that runs the separation pass first satisfies every constraint declared in
`GameplayPlugin::build` yet differs from the claimed order. -/
theorem tick_order_counterexample :
    IsScheduleRun fixedUpdateSystems fixedUpdateConstraints
      [.updateUnitRallyTargets, .tickSpawnTimers, .moveUnits, .unitCombatSystem] ∧
    ([.updateUnitRallyTargets, .tickSpawnTimers, .moveUnits, .unitCombatSystem] :
        List FixedSystem) ≠
      [.tickSpawnTimers, .moveUnits, .updateUnitRallyTargets, .unitCombatSystem] := by
  constructor
  · decide
  · decide

/-- C5 (amended): within every emitted fixed tick each of the four tick-rate
systems executes exactly once, and combat is ordered after movement
integration; the spawner and the separation pass carry no ordering
constraints relative to the other tick-rate systems.  The command-rate
systems each run exactly once per host frame, with the selection →
visuals → orders chain ordered. -/
theorem tick_order_amended (forder : List FixedSystem) (uorder : List UpdateSystem)
    (hf : IsScheduleRun fixedUpdateSystems fixedUpdateConstraints forder)
    (hu : IsScheduleRun updateSystems updateConstraints uorder) :
    (∀ s ∈ fixedUpdateSystems, forder.count s = 1) ∧
    forder.indexOf FixedSystem.moveUnits < forder.indexOf FixedSystem.unitCombatSystem ∧
    (∀ s ∈ updateSystems, uorder.count s = 1) ∧
    uorder.indexOf UpdateSystem.handleSelectionInput <
      uorder.indexOf UpdateSystem.updateSelectionVisuals ∧
    uorder.indexOf UpdateSystem.updateSelectionVisuals <
      uorder.indexOf UpdateSystem.issueMoveOrders := by
  obtain ⟨-, hfc, hford⟩ := hf
  obtain ⟨-, huc, huord⟩ := hu
  refine ⟨hfc, ?_, huc, ?_, ?_⟩
  · exact hford (FixedSystem.moveUnits, FixedSystem.unitCombatSystem)
      (by simp [fixedUpdateConstraints])
  · exact huord (UpdateSystem.handleSelectionInput, UpdateSystem.updateSelectionVisuals)
      (by simp [updateConstraints])
  · exact huord (UpdateSystem.updateSelectionVisuals, UpdateSystem.issueMoveOrders)
      (by simp [updateConstraints])

/-- Witness for `tick_order_amended`: the declaration order itself is a
valid schedule run. -/
theorem tick_order_amended_witness :
    IsScheduleRun fixedUpdateSystems fixedUpdateConstraints fixedUpdateSystems ∧
    ((∀ s ∈ fixedUpdateSystems, fixedUpdateSystems.count s = 1) ∧
    fixedUpdateSystems.indexOf FixedSystem.moveUnits <
      fixedUpdateSystems.indexOf FixedSystem.unitCombatSystem ∧
    (∀ s ∈ updateSystems, updateSystems.count s = 1) ∧
    updateSystems.indexOf UpdateSystem.handleSelectionInput <
      updateSystems.indexOf UpdateSystem.updateSelectionVisuals ∧
    updateSystems.indexOf UpdateSystem.updateSelectionVisuals <
      updateSystems.indexOf UpdateSystem.issueMoveOrders) :=
  ⟨by decide, tick_order_amended fixedUpdateSystems updateSystems (by decide) (by decide)⟩

/-! ## Pylons (C9) — `spawn_pylons` and `animate_pylons`

`Vec2::normalize` and `Vec2::clamp_length_max` are irrational over `ℚ` and
are passed as parameters; the theorem assumes only the documented contract of
`clamp_length_max` (the result's squared length never exceeds the squared
bound).  `cos`/`sin` and the constant `TAU` used by `spawn_pylons` are
likewise parameters (they do not affect the mass invariant). -/

structure PylonS where
  id : Nat
  pos : Vec2
  vel : Vec2
  mass : ℚ
deriving DecidableEq, Repr

/-- Rust `f32::clamp(lo, hi)`. -/
def qclamp (x lo hi : ℚ) : ℚ := min (max x lo) hi

/-- `rng.gen_f32(lo..=hi)`: consume one raw sample of the stream `u` at the
cursor and scale it into `[lo, hi]` (uniform when the sample is in `[0,1]`).
Returns the drawn value and the advanced cursor. -/
def genF32 (u : Nat → ℚ) (cursor : Nat) (lo hi : ℚ) : ℚ × Nat :=
  (lo + u cursor * (hi - lo), cursor + 1)

/-- The gravitational acceleration of one pylon: sum over all *other*
snapshot entries of `PYLON_GRAVITY * m_j / max(|p_j − p_i|², 4000)` in
direction `normalize(p_j − p_i)`. -/
def pylonAcceleration (vnormalize : Vec2 → Vec2)
    (snapshots : List (Nat × Vec2 × Vec2 × ℚ)) (selfId : Nat) (selfPos : Vec2) : Vec2 :=
  snapshots.foldl
    (fun acc other =>
      if selfId = other.1 then acc
      else
        let offset := vsub other.2.1 selfPos
        let distSq := max (norm2 offset) 4000
        vadd acc (smul (PYLON_GRAVITY * other.2.2.2 / distSq) (vnormalize offset)))
    (0, 0)

/-- One axis of the boundary handling: if `|coord| > boundary`, clamp the
coordinate into `[-boundary, boundary]` and invert the velocity component. -/
def bounceAxis (coord v boundary : ℚ) : ℚ × ℚ :=
  if boundary < |coord| then (qclamp coord (-boundary) boundary, -v) else (coord, v)

/-- Per-pylon body of the `animate_pylons` write loop. -/
def animatePylon (vnormalize : Vec2 → Vec2) (vclampLen : Vec2 → ℚ → Vec2)
    (boundary delta : ℚ) (snapshots : List (Nat × Vec2 × Vec2 × ℚ))
    (p : PylonS) : PylonS :=
  let v1 := vadd p.vel (smul delta (pylonAcceleration vnormalize snapshots p.id p.pos))
  let v2 := vclampLen v1 PYLON_MAX_SPEED
  let pos1 := vadd p.pos (smul delta v2)
  let ax := bounceAxis pos1.1 v2.1 boundary
  let ay := bounceAxis pos1.2 v2.2 boundary
  { p with pos := (ax.1, ay.1), vel := (ax.2, ay.2) }

/-- `animate_pylons`: snapshot all pylons, compute pairwise accelerations,
then integrate each pylon with speed clamping and boundary bouncing at
`0.45 * board_size`. -/
def animate_pylons (vnormalize : Vec2 → Vec2) (vclampLen : Vec2 → ℚ → Vec2)
    (boardSize delta : ℚ) (pylons : List PylonS) : List PylonS :=
  let snapshots := pylons.map fun p => (p.id, p.pos, p.vel, p.mass)
  let boundary := boardSize * (45 / 100)
  pylons.map (animatePylon vnormalize vclampLen boundary delta snapshots)

/-- The `for idx in 0..PYLON_COUNT` loop of `spawn_pylons`: per pylon, four
draws in order `r, θ, s, m`. -/
def spawnPylonsLoop (cosF sinF : ℚ → ℚ) (tau boardSize : ℚ) (u : Nat → ℚ) :
    Nat → Nat → Nat → List PylonS
  | 0, _, _ => []
  | k + 1, idx, cursor =>
    let r1 := genF32 u cursor 0 (15 / 100)
    let radius := boardSize * (15 / 100 + r1.1)
    let a1 := genF32 u r1.2 0 tau
    let angle := a1.1
    let position := smul radius (cosF angle, sinF angle)
    let s1 := genF32 u a1.2 20 60
    let velocity := smul s1.1 (-(sinF angle), cosF angle)
    let m1 := genF32 u s1.2 0 1
    ⟨idx, position, velocity, 1 + m1.1⟩ :: spawnPylonsLoop cosF sinF tau boardSize u k (idx + 1) m1.2

/-- `spawn_pylons`: three pylons, masses `1 + gen_f32(0..=1)`. -/
def spawn_pylons (cosF sinF : ℚ → ℚ) (tau boardSize : ℚ) (u : Nat → ℚ)
    (cursor : Nat) : List PylonS :=
  spawnPylonsLoop cosF sinF tau boardSize u PYLON_COUNT 0 cursor

theorem bounceAxis_abs_le_of_exceed (coord v boundary : ℚ) (hb : 0 ≤ boundary) :
    |(bounceAxis coord v boundary).1| ≤ boundary := by
  unfold bounceAxis
  by_cases h : boundary < |coord|
  · rw [if_pos h]
    simp only [qclamp]
    rw [abs_le]
    constructor
    · exact le_min (le_max_right _ _) (by linarith)
    · exact min_le_right _ _
  · rw [if_neg h]
    linarith [abs_nonneg coord, not_lt.mp h]

theorem bounceAxis_vel_sq (coord v boundary : ℚ) :
    ((bounceAxis coord v boundary).2) ^ 2 = v ^ 2 := by
  unfold bounceAxis
  by_cases h : boundary < |coord|
  · rw [if_pos h]; ring
  · rw [if_neg h]

theorem spawnPylonsLoop_mass (cosF sinF : ℚ → ℚ) (tau boardSize : ℚ) (u : Nat → ℚ) :
    ∀ k idx cursor, ∀ p ∈ spawnPylonsLoop cosF sinF tau boardSize u k idx cursor,
      ∃ c : Nat, p.mass = 1 + u c := by
  intro k
  induction k with
  | zero => intro idx cursor p hp; simp [spawnPylonsLoop] at hp
  | succ n ih =>
    intro idx cursor p hp
    simp only [spawnPylonsLoop, List.mem_cons] at hp
    rcases hp with rfl | hp
    · exact ⟨cursor + 3, by simp [genF32]⟩
    · exact ih (idx + 1) _ p hp

theorem spawnPylonsLoop_length (cosF sinF : ℚ → ℚ) (tau boardSize : ℚ) (u : Nat → ℚ) :
    ∀ k idx cursor, (spawnPylonsLoop cosF sinF tau boardSize u k idx cursor).length = k := by
  intro k
  induction k with
  | zero => intro idx cursor; rfl
  | succ n ih => intro idx cursor; simp [spawnPylonsLoop, ih]

/-- C9: after every `animate_pylons` frame each pylon's squared speed is at
most `PYLON_MAX_SPEED² = 240²`, its position satisfies
`|x| ≤ 0.45·board_size` and `|y| ≤ 0.45·board_size`, the boundary inversion
leaves the velocity magnitude of the clamped velocity unchanged, and masses
are untouched; `spawn_pylons` creates exactly `PYLON_COUNT = 3` pylons whose
masses lie in `[1, 2]`.  Hypotheses: the documented `clamp_length_max`
contract, a non-negative board size, and raw RNG samples in `[0, 1]`. -/
theorem pylon_bounds (vnormalize : Vec2 → Vec2) (vclampLen : Vec2 → ℚ → Vec2)
    (boardSize delta : ℚ) (pylons : List PylonS)
    (cosF sinF : ℚ → ℚ) (tau : ℚ) (u : Nat → ℚ) (cursor : Nat)
    (hclamp : ∀ v m, 0 ≤ m → norm2 (vclampLen v m) ≤ m ^ 2)
    (hboard : 0 ≤ boardSize)
    (hu : ∀ k, 0 ≤ u k ∧ u k ≤ 1) :
    (∀ p ∈ animate_pylons vnormalize vclampLen boardSize delta pylons,
      norm2 p.vel ≤ PYLON_MAX_SPEED ^ 2 ∧
      |p.pos.1| ≤ boardSize * (45 / 100) ∧
      |p.pos.2| ≤ boardSize * (45 / 100)) ∧
    (∀ p ∈ pylons,
      norm2 (animatePylon vnormalize vclampLen (boardSize * (45 / 100)) delta
          (pylons.map fun q => (q.id, q.pos, q.vel, q.mass)) p).vel =
        norm2 (vclampLen
          (vadd p.vel (smul delta (pylonAcceleration vnormalize
            (pylons.map fun q => (q.id, q.pos, q.vel, q.mass)) p.id p.pos)))
          PYLON_MAX_SPEED)) ∧
    ((animate_pylons vnormalize vclampLen boardSize delta pylons).map PylonS.mass =
      pylons.map PylonS.mass) ∧
    (spawn_pylons cosF sinF tau boardSize u cursor).length = PYLON_COUNT ∧
    (∀ p ∈ spawn_pylons cosF sinF tau boardSize u cursor,
      1 ≤ p.mass ∧ p.mass ≤ 2) := by
  have hbdry : 0 ≤ boardSize * (45 / 100) := by positivity
  have hvel : ∀ p : PylonS,
      norm2 (animatePylon vnormalize vclampLen (boardSize * (45 / 100)) delta
        (pylons.map fun q => (q.id, q.pos, q.vel, q.mass)) p).vel =
      norm2 (vclampLen
        (vadd p.vel (smul delta (pylonAcceleration vnormalize
          (pylons.map fun q => (q.id, q.pos, q.vel, q.mass)) p.id p.pos)))
        PYLON_MAX_SPEED) := by
    intro p
    unfold animatePylon norm2
    simp only
    rw [bounceAxis_vel_sq, bounceAxis_vel_sq]
  refine ⟨?_, fun p _ => hvel p, ?_, ?_, ?_⟩
  · intro p hp
    unfold animate_pylons at hp
    simp only [List.mem_map] at hp
    obtain ⟨q, hq, rfl⟩ := hp
    refine ⟨?_, ?_, ?_⟩
    · rw [hvel q]
      exact hclamp _ _ (by norm_num [PYLON_MAX_SPEED])
    · unfold animatePylon
      simp only
      exact bounceAxis_abs_le_of_exceed _ _ _ hbdry
    · unfold animatePylon
      simp only
      exact bounceAxis_abs_le_of_exceed _ _ _ hbdry
  · unfold animate_pylons
    rw [List.map_map]
    apply List.map_congr_left
    intro p _
    unfold animatePylon
    rfl
  · exact spawnPylonsLoop_length cosF sinF tau boardSize u PYLON_COUNT 0 cursor
  · intro p hp
    obtain ⟨c, hc⟩ := spawnPylonsLoop_mass cosF sinF tau boardSize u PYLON_COUNT 0 cursor p hp
    obtain ⟨h0, h1⟩ := hu c
    constructor <;> (rw [hc]; linarith)

/-- Witness for `pylon_bounds` at a concrete single-pylon world. -/
theorem pylon_bounds_witness :
    ((∀ v m, (0 : ℚ) ≤ m →
        norm2 ((fun (w : Vec2) (b : ℚ) => if norm2 w ≤ b ^ 2 then w else (0, 0)) v m) ≤ m ^ 2) ∧
      (0 : ℚ) ≤ 1600 ∧ (∀ k : Nat, 0 ≤ (fun _ : Nat => (1 : ℚ) / 2) k ∧
        (fun _ : Nat => (1 : ℚ) / 2) k ≤ 1)) ∧
    ((∀ p ∈ animate_pylons id (fun (w : Vec2) (b : ℚ) => if norm2 w ≤ b ^ 2 then w else (0, 0))
        1600 1 [PylonS.mk 0 (100, 0) (0, 0) (3 / 2)],
      norm2 p.vel ≤ PYLON_MAX_SPEED ^ 2 ∧
      |p.pos.1| ≤ 1600 * (45 / 100) ∧
      |p.pos.2| ≤ 1600 * (45 / 100)) ∧
    (∀ p ∈ [PylonS.mk 0 (100, 0) (0, 0) (3 / 2)],
      norm2 (animatePylon id
          (fun (w : Vec2) (b : ℚ) => if norm2 w ≤ b ^ 2 then w else (0, 0))
          (1600 * (45 / 100)) 1
          ([PylonS.mk 0 (100, 0) (0, 0) (3 / 2)].map fun q => (q.id, q.pos, q.vel, q.mass)) p).vel =
        norm2 ((fun (w : Vec2) (b : ℚ) => if norm2 w ≤ b ^ 2 then w else (0, 0))
          (vadd p.vel (smul 1 (pylonAcceleration id
            ([PylonS.mk 0 (100, 0) (0, 0) (3 / 2)].map fun q => (q.id, q.pos, q.vel, q.mass))
            p.id p.pos)))
          PYLON_MAX_SPEED)) ∧
    ((animate_pylons id (fun (w : Vec2) (b : ℚ) => if norm2 w ≤ b ^ 2 then w else (0, 0))
        1600 1 [PylonS.mk 0 (100, 0) (0, 0) (3 / 2)]).map PylonS.mass =
      [PylonS.mk 0 (100, 0) (0, 0) (3 / 2)].map PylonS.mass) ∧
    (spawn_pylons (fun _ => 0) (fun _ => 0) 6 1600 (fun _ => 1 / 2) 0).length = PYLON_COUNT ∧
    (∀ p ∈ spawn_pylons (fun _ => 0) (fun _ => 0) 6 1600 (fun _ => 1 / 2) 0,
      1 ≤ p.mass ∧ p.mass ≤ 2)) := by
  have hclamp : ∀ v m, (0 : ℚ) ≤ m →
      norm2 ((fun (w : Vec2) (b : ℚ) => if norm2 w ≤ b ^ 2 then w else (0, 0)) v m) ≤ m ^ 2 := by
    intro v m _
    by_cases h : norm2 v ≤ m ^ 2
    · simp [h]
    · simp only [if_neg h]
      have : norm2 ((0 : ℚ), (0 : ℚ)) = 0 := by simp [norm2]
      rw [this]
      positivity
  have hu : ∀ k : Nat, 0 ≤ (fun _ : Nat => (1 : ℚ) / 2) k ∧
      (fun _ : Nat => (1 : ℚ) / 2) k ≤ 1 := by
    intro k
    norm_num
  exact ⟨⟨hclamp, by norm_num, hu⟩,
    pylon_bounds id (fun (w : Vec2) (b : ℚ) => if norm2 w ≤ b ^ 2 then w else (0, 0))
      1600 1 [PylonS.mk 0 (100, 0) (0, 0) (3 / 2)]
      (fun _ => 0) (fun _ => 0) 6 (fun _ => 1 / 2) 0
      hclamp (by norm_num) hu⟩

/-! ## Support graph (C6) — adjacency, anchored flood fill

The snapshot is the list of `(entity, player, position)` triples collected at
the start of `unit_combat_system`.  `entity_info` is a map built by inserting
the snapshot entries in order (later insertions win), embedded as a lookup in
the reversed list.  The flood fill is embedded by its set semantics: the
BFS queue of the source only fixes a discovery *order*; membership of the
shared `connected_entities` set is determined by reachability alone (as the
spec's §4.6 also states), which the round-based iteration below computes.
The per-entry fill is parameterised by an arbitrary edge list `adj` so that
the monotonicity claim can quantify over added edges; `unit_combat_system`
instantiates `adj` with the edge list actually built from the snapshot. -/

abbrev Snap : Type := Nat × Nat × Vec2

/-- All index-ordered pairs `i < j` of a list (the double loop
`for i in 0..n { for j in (i+1)..n }`). -/
def allPairs {α : Type} : List α → List (α × α)
  | [] => []
  | x :: rest => rest.map (fun y => (x, y)) ++ allPairs rest

/-- The qualifying same-player pairs within `LASER_HEAL_RANGE`. -/
def supportPairs (snap : List Snap) : List (Snap × Snap) :=
  (allPairs snap).filter fun ab =>
    ab.1.2.1 = ab.2.2.1 ∧ dist2 ab.1.2.2 ab.2.2.2 ≤ LASER_HEAL_RANGE ^ 2

/-- The `support_links` edge list (one edge per qualifying pair). -/
def support_links (snap : List Snap) : List (Nat × Nat) :=
  (supportPairs snap).map fun ab => (ab.1.1, ab.2.1)

/-- `connections[e]`: both endpoints of every qualifying pair are counted. -/
def connCount (snap : List Snap) (e : Nat) : Nat :=
  (supportPairs snap).foldl
    (fun c ab => c + (if ab.1.1 = e then 1 else 0) + (if ab.2.1 = e then 1 else 0)) 0

/-- `entity_info.get(e)`: last snapshot entry with this id wins. -/
def entityInfo (snap : List Snap) (e : Nat) : Option (Nat × Vec2) :=
  (snap.reverse.find? fun s => s.1 = e).map fun s => s.2

/-- The neighbour filter of the flood fill: the entity exists in the
snapshot and belongs to player `p`. -/
def playerInSnap (snap : List Snap) (p e : Nat) : Prop :=
  (entityInfo snap e).map Prod.fst = some p

instance (snap : List Snap) (p e : Nat) : Decidable (playerInSnap snap p e) := by
  unfold playerInSnap
  infer_instance

/-- The seed set of one registry entry: player-`p` units within
`LASER_HEAL_RANGE` of the anchor. -/
def seedSet (snap : List Snap) (p : Nat) (anchor : Vec2) : Finset Nat :=
  (snap.filter fun s =>
      s.2.1 = p ∧ dist2 s.2.2 anchor ≤ LASER_HEAL_RANGE ^ 2).foldr
    (fun s acc => insert s.1 acc) ∅

/-- One expansion round: add every neighbour (along either direction of an
edge) of a member, provided the neighbour is a player-`p` snapshot entity. -/
def expandStep (snap : List Snap) (adj : List (Nat × Nat)) (p : Nat)
    (s : Finset Nat) : Finset Nat :=
  adj.foldr
    (fun e acc =>
      let acc1 := if e.1 ∈ s ∧ playerInSnap snap p e.2 then insert e.2 acc else acc
      if e.2 ∈ s ∧ playerInSnap snap p e.1 then insert e.1 acc1 else acc1)
    s

/-- Round-based flood fill; `snap.length` rounds always reach the fixpoint
of the BFS. -/
def floodIter (snap : List Snap) (adj : List (Nat × Nat)) (p : Nat) :
    Nat → Finset Nat → Finset Nat
  | 0, s => s
  | k + 1, s => floodIter snap adj p k (expandStep snap adj p s)

/-- One registry entry of the fill loop: seed from the anchor, then flood,
threading the shared `connected_entities` set. -/
def suppliedEntryStep (snap : List Snap) (adj : List (Nat × Nat))
    (entry : Nat × Vec2) (conn : Finset Nat) : Finset Nat :=
  floodIter snap adj entry.1 snap.length (conn ∪ seedSet snap entry.1 entry.2)

/-- The full loop over the spawn registry: returns the final
`connected_entities` set and the non-empty per-entry components
(`conn' \ conn`), in entry order. -/
def suppliedAll (snap : List Snap) (adj : List (Nat × Nat)) :
    List (Nat × Vec2) → Finset Nat → Finset Nat × List (Finset Nat)
  | [], conn => (conn, [])
  | entry :: rest, conn =>
    let conn' := suppliedEntryStep snap adj entry conn
    let comp := conn' \ conn
    let r := suppliedAll snap adj rest conn'
    (r.1, if comp = ∅ then r.2 else comp :: r.2)

/-- The `connected_entities` set (union of all players' supplied sets). -/
def connected_entities (snap : List Snap) (adj : List (Nat × Nat))
    (registry : List (Nat × Vec2)) : Finset Nat :=
  (suppliedAll snap adj registry ∅).1

/-- The `supply_components` list. -/
def supply_components (snap : List Snap) (adj : List (Nat × Nat))
    (registry : List (Nat × Vec2)) : List (Finset Nat) :=
  (suppliedAll snap adj registry ∅).2

theorem expandStep_extensive (snap : List Snap) (adj : List (Nat × Nat)) (p : Nat)
    (s : Finset Nat) : s ⊆ expandStep snap adj p s := by
  unfold expandStep
  induction adj with
  | nil => exact Finset.Subset.refl s
  | cons e rest ih =>
    simp only [List.foldr_cons]
    refine Finset.Subset.trans ih ?_
    set acc := rest.foldr _ s with hacc
    by_cases h1 : e.1 ∈ s ∧ playerInSnap snap p e.2 <;>
      by_cases h2 : e.2 ∈ s ∧ playerInSnap snap p e.1 <;>
        simp only [if_pos, if_neg, h1, h2, if_true, if_false] <;>
        first
          | exact Finset.Subset.refl _
          | exact Finset.subset_insert _ _
          | exact Finset.Subset.trans (Finset.subset_insert _ _) (Finset.subset_insert _ _)

theorem expandStep_mono (snap : List Snap) (p : Nat) (adj : List (Nat × Nat))
    (e0 : Nat × Nat) (s s' : Finset Nat) (hss : s ⊆ s') :
    expandStep snap adj p s ⊆ expandStep snap (e0 :: adj) p s' := by
  have key : ∀ (l : List (Nat × Nat)) (a b : Finset Nat), a ⊆ b →
      l.foldr
        (fun e acc =>
          let acc1 := if e.1 ∈ s ∧ playerInSnap snap p e.2 then insert e.2 acc else acc
          if e.2 ∈ s ∧ playerInSnap snap p e.1 then insert e.1 acc1 else acc1)
        a ⊆
      l.foldr
        (fun e acc =>
          let acc1 := if e.1 ∈ s' ∧ playerInSnap snap p e.2 then insert e.2 acc else acc
          if e.2 ∈ s' ∧ playerInSnap snap p e.1 then insert e.1 acc1 else acc1)
        b := by
    intro l
    induction l with
    | nil => intro a b hab; exact hab
    | cons e rest ih =>
      intro a b hab
      simp only [List.foldr_cons]
      have hrec := ih a b hab
      set accL := rest.foldr _ a
      set accR := rest.foldr _ b
      have step1 :
          (if e.1 ∈ s ∧ playerInSnap snap p e.2 then insert e.2 accL else accL) ⊆
          (if e.1 ∈ s' ∧ playerInSnap snap p e.2 then insert e.2 accR else accR) := by
        by_cases hc : e.1 ∈ s ∧ playerInSnap snap p e.2
        · have hc' : e.1 ∈ s' ∧ playerInSnap snap p e.2 := ⟨hss hc.1, hc.2⟩
          rw [if_pos hc, if_pos hc']
          exact Finset.insert_subset_insert _ hrec
        · rw [if_neg hc]
          by_cases hc' : e.1 ∈ s' ∧ playerInSnap snap p e.2
          · rw [if_pos hc']
            exact Finset.Subset.trans hrec (Finset.subset_insert _ _)
          · rw [if_neg hc']
            exact hrec
      by_cases hd : e.2 ∈ s ∧ playerInSnap snap p e.1
      · have hd' : e.2 ∈ s' ∧ playerInSnap snap p e.1 := ⟨hss hd.1, hd.2⟩
        rw [if_pos hd, if_pos hd']
        exact Finset.insert_subset_insert _ step1
      · rw [if_neg hd]
        by_cases hd' : e.2 ∈ s' ∧ playerInSnap snap p e.1
        · rw [if_pos hd']
          exact Finset.Subset.trans step1 (Finset.subset_insert _ _)
        · rw [if_neg hd']
          exact step1
  unfold expandStep
  simp only [List.foldr_cons]
  refine Finset.Subset.trans (key adj s s' hss) ?_
  set accR := adj.foldr _ s'
  by_cases h1 : e0.1 ∈ s' ∧ playerInSnap snap p e0.2 <;>
    by_cases h2 : e0.2 ∈ s' ∧ playerInSnap snap p e0.1 <;>
      simp only [if_pos, if_neg, h1, h2, if_true, if_false] <;>
      first
        | exact Finset.Subset.refl _
        | exact Finset.subset_insert _ _
        | exact Finset.Subset.trans (Finset.subset_insert _ _) (Finset.subset_insert _ _)

theorem floodIter_mono (snap : List Snap) (p : Nat) (adj : List (Nat × Nat))
    (e0 : Nat × Nat) :
    ∀ (k : Nat) (s s' : Finset Nat), s ⊆ s' →
      floodIter snap adj p k s ⊆ floodIter snap (e0 :: adj) p k s' := by
  intro k
  induction k with
  | zero => intro s s' hss; exact hss
  | succ n ih =>
    intro s s' hss
    exact ih _ _ (expandStep_mono snap p adj e0 s s' hss)

theorem floodIter_extensive (snap : List Snap) (adj : List (Nat × Nat)) (p : Nat) :
    ∀ (k : Nat) (s : Finset Nat), s ⊆ floodIter snap adj p k s := by
  intro k
  induction k with
  | zero => intro s; exact Finset.Subset.refl s
  | succ n ih =>
    intro s
    exact Finset.Subset.trans (expandStep_extensive snap adj p s) (ih _)

theorem suppliedAll_mono (snap : List Snap) (adj : List (Nat × Nat)) (e0 : Nat × Nat) :
    ∀ (registry : List (Nat × Vec2)) (conn conn' : Finset Nat), conn ⊆ conn' →
      (suppliedAll snap adj registry conn).1 ⊆
        (suppliedAll snap (e0 :: adj) registry conn').1 := by
  intro registry
  induction registry with
  | nil => intro conn conn' h; exact h
  | cons entry rest ih =>
    intro conn conn' h
    simp only [suppliedAll]
    apply ih
    unfold suppliedEntryStep
    exact floodIter_mono snap entry.1 adj e0 snap.length _ _
      (Finset.union_subset_union h (Finset.Subset.refl _))

/-- C6: adding one same-player edge to the adjacency can only grow (or leave
unchanged) the supplied set — globally and for each player's slice of it. -/
theorem supplied_set_monotone (snap : List Snap) (registry : List (Nat × Vec2))
    (adj : List (Nat × Nat)) (e0 : Nat × Nat) (p0 : Nat)
    (_hsame : playerInSnap snap p0 e0.1 ∧ playerInSnap snap p0 e0.2) :
    connected_entities snap adj registry ⊆
      connected_entities snap (e0 :: adj) registry ∧
    ∀ p : Nat,
      (connected_entities snap adj registry).filter (playerInSnap snap p) ⊆
        (connected_entities snap (e0 :: adj) registry).filter (playerInSnap snap p) := by
  have hglobal : connected_entities snap adj registry ⊆
      connected_entities snap (e0 :: adj) registry :=
    suppliedAll_mono snap adj e0 registry ∅ ∅ (Finset.Subset.refl _)
  exact ⟨hglobal, fun p => Finset.filter_subset_filter _ hglobal⟩

/-- Witness for `supplied_set_monotone`: two player-0 units, one in heal
range of the anchor, and the edge joining them. -/
theorem supplied_set_monotone_witness :
    (playerInSnap [(1, 0, ((0 : ℚ), (0 : ℚ))), (2, 0, (200, 0))] 0 1 ∧
      playerInSnap [(1, 0, ((0 : ℚ), (0 : ℚ))), (2, 0, (200, 0))] 0 2) ∧
    (connected_entities [(1, 0, ((0 : ℚ), (0 : ℚ))), (2, 0, (200, 0))] []
        [(0, ((0 : ℚ), (0 : ℚ)))] ⊆
      connected_entities [(1, 0, ((0 : ℚ), (0 : ℚ))), (2, 0, (200, 0))] [(1, 2)]
        [(0, ((0 : ℚ), (0 : ℚ)))] ∧
    ∀ p : Nat,
      (connected_entities [(1, 0, ((0 : ℚ), (0 : ℚ))), (2, 0, (200, 0))] []
          [(0, ((0 : ℚ), (0 : ℚ)))]).filter
          (playerInSnap [(1, 0, ((0 : ℚ), (0 : ℚ))), (2, 0, (200, 0))] p) ⊆
        (connected_entities [(1, 0, ((0 : ℚ), (0 : ℚ))), (2, 0, (200, 0))] [(1, 2)]
            [(0, ((0 : ℚ), (0 : ℚ)))]).filter
          (playerInSnap [(1, 0, ((0 : ℚ), (0 : ℚ))), (2, 0, (200, 0))] p)) := by
  have hsame : playerInSnap [(1, 0, ((0 : ℚ), (0 : ℚ))), (2, 0, (200, 0))] 0 1 ∧
      playerInSnap [(1, 0, ((0 : ℚ), (0 : ℚ))), (2, 0, (200, 0))] 0 2 := by
    constructor <;> rfl
  exact ⟨hsame,
    supplied_set_monotone [(1, 0, ((0 : ℚ), (0 : ℚ))), (2, 0, (200, 0))]
      [(0, ((0 : ℚ), (0 : ℚ)))] [] (1, 2) 0 hsame⟩

/-! ## Combat (C3, C4) — `unit_combat_system`

Range checks (`distance <= LASER_RANGE`) again use squared distances; the
nearest-enemy selection uses `distance_squared` in the source already.
Bevy's repeating `Timer` is embedded exactly: `tick` adds the delta,
`finished()` (= `just_finished()` for repeating timers) reports whether the
duration was reached, and the elapsed time wraps modulo the duration.
The purely visual effects of the system (beams, link colours, sprite scale,
boost glows) have no bearing on position/health/death and are not embedded. -/

/-- `a mod b` over `ℚ` (the wrap of a repeating timer). -/
def qmod (a b : ℚ) : ℚ := a - b * ⌊a / b⌋

structure Timer where
  elapsed : ℚ
  duration : ℚ
deriving DecidableEq, Repr

/-- Bevy `Timer::tick` for a repeating timer followed by `finished()`:
returns the advanced timer and whether it reached its duration this tick. -/
def Timer.tickRepeating (t : Timer) (delta : ℚ) : Timer × Bool :=
  let total := t.elapsed + delta
  if t.duration ≤ total then
    ({ elapsed := if 0 < t.duration then qmod total t.duration else 0,
       duration := t.duration }, true)
  else ({ t with elapsed := total }, false)

structure CUnit where
  id : Nat
  player : Nat
  pos : Vec2
  health : ℚ
  max_health : ℚ
  attack_timer : Timer
deriving DecidableEq, Repr

/-- The pre-step snapshot collected by `unit_combat_system`. -/
def combatSnapshot (units : List CUnit) : List Snap :=
  units.map fun u => (u.id, u.player, u.pos)

/-- `min_by` over the enemy-filtered snapshot comparing `distance_squared`;
the first of equally-near enemies wins (Rust `Iterator::min_by`). -/
def nearestEnemy (snap : List Snap) (player : Nat) (pos : Vec2) :
    Option (Nat × Vec2) :=
  (snap.filter fun s => s.2.1 ≠ player).foldl
    (fun best s =>
      match best with
      | none => some (s.1, s.2.2)
      | some b => if dist2 s.2.2 pos < dist2 b.2 pos then some (s.1, s.2.2) else best)
    none

/-- Is this snapshot entity within `PYLON_RADIUS` of any pylon? -/
def entityNearPylon (snap : List Snap) (pylonPositions : List Vec2) (e : Nat) : Bool :=
  match entityInfo snap e with
  | some info => decide (∃ pp ∈ pylonPositions, dist2 info.2 pp ≤ PYLON_RADIUS ^ 2)
  | none => false

/-- The uniform bonus of one supplied component:
`PYLON_DAMAGE_BONUS` per member within `PYLON_RADIUS` of any pylon. -/
def componentBonus (snap : List Snap) (pylonPositions : List Vec2)
    (comp : Finset Nat) : ℚ :=
  PYLON_DAMAGE_BONUS *
    ((comp.filter fun e => entityNearPylon snap pylonPositions e = true).card : ℚ)

/-- `component_bonus.get(e)`: the bonus of the component containing `e`,
`0` for unsupplied entities. -/
def pylonBonusOf (snap : List Snap) (pylonPositions : List Vec2)
    (comps : List (Finset Nat)) (e : Nat) : ℚ :=
  match comps.find? (fun c => decide (e ∈ c)) with
  | some c => componentBonus snap pylonPositions c
  | none => 0

/-- Step 2 of the write loop: the support heal.  `boost_active` is
membership in `connected_entities`; the heal is capped at `max_health`. -/
def combatHealth1 (snap : List Snap) (connSet : Finset Nat) (delta : ℚ)
    (u : CUnit) : ℚ :=
  if u.id ∈ connSet ∧ 0 < connCount snap u.id ∧ u.health < u.max_health then
    min (u.health + connCount snap u.id * SUPPORT_HEAL_PER_SECOND * delta)
      u.max_health
  else u.health

/-- The damage multiplier: `1`, plus the connection and pylon bonuses when
the unit is supplied. -/
def damageMultiplier (snap : List Snap) (connSet : Finset Nat) (bonusOf : Nat → ℚ)
    (u : CUnit) : ℚ :=
  if u.id ∈ connSet
    then 1 + connCount snap u.id * SUPPORT_DAMAGE_BONUS + bonusOf u.id
    else 1

/-- Body of the write loop of `unit_combat_system` for one unit: advance the
attack timer, apply the support heal, then fire at the nearest enemy if it
is in range and the cooldown elapsed.  Returns the updated unit and the
queued damage event, if any. -/
def combatUnitStep (snap : List Snap) (connSet : Finset Nat) (bonusOf : Nat → ℚ)
    (delta : ℚ) (u : CUnit) : CUnit × Option (Nat × ℚ) :=
  let tk := u.attack_timer.tickRepeating delta
  let health1 := combatHealth1 snap connSet delta u
  match nearestEnemy snap u.player u.pos with
  | some t =>
    if dist2 t.2 u.pos ≤ LASER_RANGE ^ 2 ∧ tk.2 = true then
      ({ u with health := health1, attack_timer := ⟨0, LASER_COOLDOWN⟩ },
        some (t.1, LASER_DAMAGE * damageMultiplier snap connSet bonusOf u))
    else ({ u with health := health1, attack_timer := tk.1 }, none)
  | none => ({ u with health := health1, attack_timer := tk.1 }, none)

theorem combatUnitStep_eq_none (snap : List Snap) (connSet : Finset Nat)
    (bonusOf : Nat → ℚ) (delta : ℚ) (u : CUnit)
    (h : nearestEnemy snap u.player u.pos = none) :
    combatUnitStep snap connSet bonusOf delta u =
      ({ u with
          health := combatHealth1 snap connSet delta u,
          attack_timer := (u.attack_timer.tickRepeating delta).1 }, none) := by
  unfold combatUnitStep
  rw [h]

theorem combatUnitStep_eq_fire (snap : List Snap) (connSet : Finset Nat)
    (bonusOf : Nat → ℚ) (delta : ℚ) (u : CUnit) (t : Nat × Vec2)
    (h : nearestEnemy snap u.player u.pos = some t)
    (hc : dist2 t.2 u.pos ≤ LASER_RANGE ^ 2 ∧
      (u.attack_timer.tickRepeating delta).2 = true) :
    combatUnitStep snap connSet bonusOf delta u =
      ({ u with
          health := combatHealth1 snap connSet delta u,
          attack_timer := ⟨0, LASER_COOLDOWN⟩ },
        some (t.1, LASER_DAMAGE * damageMultiplier snap connSet bonusOf u)) := by
  unfold combatUnitStep
  rw [h]
  exact if_pos hc

theorem combatUnitStep_eq_nofire (snap : List Snap) (connSet : Finset Nat)
    (bonusOf : Nat → ℚ) (delta : ℚ) (u : CUnit) (t : Nat × Vec2)
    (h : nearestEnemy snap u.player u.pos = some t)
    (hc : ¬(dist2 t.2 u.pos ≤ LASER_RANGE ^ 2 ∧
      (u.attack_timer.tickRepeating delta).2 = true)) :
    combatUnitStep snap connSet bonusOf delta u =
      ({ u with
          health := combatHealth1 snap connSet delta u,
          attack_timer := (u.attack_timer.tickRepeating delta).1 }, none) := by
  unfold combatUnitStep
  rw [h]
  exact if_neg hc

theorem combatHealth1_bounds (snap : List Snap) (connSet : Finset Nat)
    (delta : ℚ) (u : CUnit)
    (hd : 0 ≤ delta) (hh : 0 < u.health) (hm : u.health ≤ u.max_health) :
    0 < combatHealth1 snap connSet delta u ∧
    combatHealth1 snap connSet delta u ≤ u.max_health := by
  unfold combatHealth1
  by_cases hc : u.id ∈ connSet ∧ 0 < connCount snap u.id ∧ u.health < u.max_health
  · rw [if_pos hc]
    have hamt : 0 ≤ (connCount snap u.id : ℚ) * SUPPORT_HEAL_PER_SECOND * delta := by
      have h0 : (0 : ℚ) ≤ (connCount snap u.id : ℚ) := by positivity
      unfold SUPPORT_HEAL_PER_SECOND
      nlinarith
    constructor
    · apply lt_min <;> linarith
    · exact min_le_right _ _
  · rw [if_neg hc]
    exact ⟨hh, hm⟩

theorem damageMultiplier_pos (snap : List Snap) (connSet : Finset Nat)
    (bonusOf : Nat → ℚ) (u : CUnit) (hb : 0 ≤ bonusOf u.id) :
    0 < damageMultiplier snap connSet bonusOf u := by
  unfold damageMultiplier
  by_cases hboost : u.id ∈ connSet
  · rw [if_pos hboost]
    have hconn : (0 : ℚ) ≤ (connCount snap u.id : ℚ) := by positivity
    unfold SUPPORT_DAMAGE_BONUS
    nlinarith
  · rw [if_neg hboost]
    norm_num

/-- The full write loop: updated units plus the damage events in queue
order. -/
def combatPass (snap : List Snap) (connSet : Finset Nat) (bonusOf : Nat → ℚ)
    (delta : ℚ) (units : List CUnit) : List CUnit × List (Nat × ℚ) :=
  ((units.map (combatUnitStep snap connSet bonusOf delta)).map Prod.fst,
   (units.map (combatUnitStep snap connSet bonusOf delta)).filterMap Prod.snd)

/-- `unit_write.get_mut(entity)` followed by `health -= amount`: subtract
from the first unit with the given id.  Returns the updated list and the
hit unit's new health (when found). -/
def hitTarget : List CUnit → Nat → ℚ → List CUnit × Option ℚ
  | [], _, _ => ([], none)
  | u :: rest, tid, amt =>
    if u.id = tid then
      ({ u with health := u.health - amt } :: rest, some (u.health - amt))
    else
      let r := hitTarget rest tid amt
      (u :: r.1, r.2)

/-- One damage event: subtract from the target (when present) and push the
target onto the death list when its new health is `≤ 0`. -/
def applyOneDamage (acc : List CUnit × List Nat) (ev : Nat × ℚ) :
    List CUnit × List Nat :=
  let r := hitTarget acc.1 ev.1 ev.2
  (r.1,
    match r.2 with
    | some h => if h ≤ 0 then acc.2 ++ [ev.1] else acc.2
    | none => acc.2)

/-- Apply the damage events in queue order; entities whose health drops to
`0` or below are pushed onto the death list. -/
def applyDamageEvents (units : List CUnit) (events : List (Nat × ℚ)) :
    List CUnit × List Nat :=
  events.foldl applyOneDamage (units, [])

/-- The state of `unit_combat_system` after the write pass and the damage
application: the unit list with heals, timers and damage applied, and the
death list. -/
def combatDamageStage (registry : List (Nat × Vec2)) (pylonPositions : List Vec2)
    (delta : ℚ) (units : List CUnit) : List CUnit × List Nat :=
  let snap := combatSnapshot units
  let adj := support_links snap
  let sa := suppliedAll snap adj registry ∅
  let bonusOf := pylonBonusOf snap pylonPositions sa.2
  let pass := combatPass snap sa.1 bonusOf delta units
  applyDamageEvents pass.1 pass.2

/-- `unit_combat_system`: snapshot, adjacency, anchored flood fill, bonuses,
write pass, damage application, death despawns. -/
def unit_combat_system (registry : List (Nat × Vec2)) (pylonPositions : List Vec2)
    (delta : ℚ) (units : List CUnit) : List CUnit :=
  let ad := combatDamageStage registry pylonPositions delta units
  ad.1.filter fun u => !decide (u.id ∈ ad.2)

theorem componentBonus_nonneg (snap : List Snap) (pylonPositions : List Vec2)
    (comp : Finset Nat) : 0 ≤ componentBonus snap pylonPositions comp := by
  unfold componentBonus PYLON_DAMAGE_BONUS
  positivity

theorem pylonBonusOf_nonneg (snap : List Snap) (pylonPositions : List Vec2)
    (comps : List (Finset Nat)) (e : Nat) :
    0 ≤ pylonBonusOf snap pylonPositions comps e := by
  unfold pylonBonusOf
  cases h : comps.find? (fun c => decide (e ∈ c)) with
  | none => simp
  | some c => simpa using componentBonus_nonneg snap pylonPositions c

theorem combatUnitStep_health (snap : List Snap) (connSet : Finset Nat)
    (bonusOf : Nat → ℚ) (delta : ℚ) (u : CUnit)
    (hd : 0 ≤ delta) (hh : 0 < u.health) (hm : u.health ≤ u.max_health) :
    (combatUnitStep snap connSet bonusOf delta u).1.id = u.id ∧
    (combatUnitStep snap connSet bonusOf delta u).1.max_health = u.max_health ∧
    0 < (combatUnitStep snap connSet bonusOf delta u).1.health ∧
    (combatUnitStep snap connSet bonusOf delta u).1.health ≤ u.max_health := by
  obtain ⟨hpos, hle⟩ := combatHealth1_bounds snap connSet delta u hd hh hm
  cases hne : nearestEnemy snap u.player u.pos with
  | none =>
    rw [combatUnitStep_eq_none snap connSet bonusOf delta u hne]
    exact ⟨rfl, rfl, hpos, hle⟩
  | some t =>
    by_cases hfire : dist2 t.2 u.pos ≤ LASER_RANGE ^ 2 ∧
        (u.attack_timer.tickRepeating delta).2 = true
    · rw [combatUnitStep_eq_fire snap connSet bonusOf delta u t hne hfire]
      exact ⟨rfl, rfl, hpos, hle⟩
    · rw [combatUnitStep_eq_nofire snap connSet bonusOf delta u t hne hfire]
      exact ⟨rfl, rfl, hpos, hle⟩

theorem combatUnitStep_event_nonneg (snap : List Snap) (connSet : Finset Nat)
    (bonusOf : Nat → ℚ) (delta : ℚ) (u : CUnit)
    (hb : 0 ≤ bonusOf u.id) :
    ∀ ev, (combatUnitStep snap connSet bonusOf delta u).2 = some ev → 0 ≤ ev.2 := by
  intro ev hev
  cases hne : nearestEnemy snap u.player u.pos with
  | none =>
    rw [combatUnitStep_eq_none snap connSet bonusOf delta u hne] at hev
    exact absurd hev (by simp)
  | some t =>
    by_cases hfire : dist2 t.2 u.pos ≤ LASER_RANGE ^ 2 ∧
        (u.attack_timer.tickRepeating delta).2 = true
    · rw [combatUnitStep_eq_fire snap connSet bonusOf delta u t hne hfire] at hev
      simp only [Option.some.injEq] at hev
      subst hev
      have hmul := damageMultiplier_pos snap connSet bonusOf u hb
      show 0 ≤ LASER_DAMAGE * damageMultiplier snap connSet bonusOf u
      unfold LASER_DAMAGE
      nlinarith
    · rw [combatUnitStep_eq_nofire snap connSet bonusOf delta u t hne hfire] at hev
      exact absurd hev (by simp)

theorem combatPass_events_nonneg (snap : List Snap) (connSet : Finset Nat)
    (bonusOf : Nat → ℚ) (delta : ℚ) (units : List CUnit)
    (hb : ∀ e, 0 ≤ bonusOf e) :
    ∀ ev ∈ (combatPass snap connSet bonusOf delta units).2, 0 ≤ ev.2 := by
  intro ev hev
  unfold combatPass at hev
  simp only [List.mem_filterMap, List.mem_map] at hev
  obtain ⟨x, ⟨v, _, rfl⟩, hx2⟩ := hev
  exact combatUnitStep_event_nonneg snap connSet bonusOf delta v (hb v.id) ev hx2

theorem combatPass_units_health (snap : List Snap) (connSet : Finset Nat)
    (bonusOf : Nat → ℚ) (delta : ℚ) (units : List CUnit)
    (hd : 0 ≤ delta)
    (hinv : ∀ u ∈ units, 0 < u.health ∧ u.health ≤ u.max_health) :
    ∀ u ∈ (combatPass snap connSet bonusOf delta units).1,
      0 < u.health ∧ u.health ≤ u.max_health := by
  intro u hu
  unfold combatPass at hu
  simp only [List.map_map, List.mem_map] at hu
  obtain ⟨v, hv, rfl⟩ := hu
  obtain ⟨h1, h2⟩ := hinv v hv
  obtain ⟨-, hmax, hpos, hle⟩ :=
    combatUnitStep_health snap connSet bonusOf delta v hd h1 h2
  simp only [Function.comp]
  exact ⟨hpos, by rw [← hmax] at hle; exact hle⟩

theorem hitTarget_mem (l : List CUnit) (tid : Nat) (amt : ℚ) :
    ∀ u ∈ (hitTarget l tid amt).1,
      u ∈ l ∨
      ∃ v ∈ l, v.id = tid ∧ u.id = tid ∧ u.max_health = v.max_health ∧
        u.health = v.health - amt ∧ (hitTarget l tid amt).2 = some u.health := by
  induction l with
  | nil => intro u hu; simp [hitTarget] at hu
  | cons v rest ih =>
    intro u hu
    by_cases hid : v.id = tid
    · simp only [hitTarget, if_pos hid] at hu ⊢
      rcases List.mem_cons.mp hu with rfl | hu

      · exact Or.inr ⟨v, List.mem_cons_self v rest, hid, hid, rfl, rfl, rfl⟩
      · exact Or.inl (List.mem_cons_of_mem v hu)
    · simp only [hitTarget, if_neg hid] at hu ⊢
      rcases List.mem_cons.mp hu with rfl | hu
      · exact Or.inl (List.mem_cons_self u rest)
      · rcases ih u hu with h | ⟨w, hw, hrest⟩
        · exact Or.inl (List.mem_cons_of_mem v h)
        · exact Or.inr ⟨w, List.mem_cons_of_mem v hw, hrest⟩

/-- One damage event preserves the loop invariant: every unit of the running
list is either healthy (`0 < health ≤ max_health`) or marked for death. -/
theorem applyOneDamage_invariant (st : List CUnit × List Nat) (ev : Nat × ℚ)
    (hamt : 0 ≤ ev.2)
    (hst : ∀ u ∈ st.1, (0 < u.health ∧ u.health ≤ u.max_health) ∨ u.id ∈ st.2) :
    ∀ u ∈ (applyOneDamage st ev).1,
      (0 < u.health ∧ u.health ≤ u.max_health) ∨ u.id ∈ (applyOneDamage st ev).2 := by
  intro w hw
  unfold applyOneDamage at hw ⊢
  simp only at hw ⊢
  cases hfound : (hitTarget st.1 ev.1 ev.2).2 with
  | none =>
    simp only [hfound]
    rcases hitTarget_mem st.1 ev.1 ev.2 w hw with h | ⟨v, _, _, _, _, hsome⟩
    · exact hst w h
    · rw [hfound] at hsome; exact absurd hsome (by simp)
  | some h =>
    simp only [hfound]
    rcases hitTarget_mem st.1 ev.1 ev.2 w hw with hmem | ⟨v, hv, hvid, hwid, hwmax, hwhp, hsome⟩
    · rcases hst w hmem with hok | hdead
      · exact Or.inl hok
      · refine Or.inr ?_
        by_cases hz : h ≤ 0
        · rw [if_pos hz]; exact List.mem_append_left _ hdead
        · rw [if_neg hz]; exact hdead
    · rw [hfound] at hsome
      have hwh : h = w.health := Option.some.inj hsome
      by_cases hz : h ≤ 0
      · refine Or.inr ?_
        rw [if_pos hz, hwid]
        exact List.mem_append_right _ (List.mem_singleton.mpr rfl)
      · push_neg at hz
        rcases hst v hv with hok | hdead
        · refine Or.inl ⟨?_, ?_⟩
          · rw [← hwh]; exact hz
          · rw [hwmax, hwhp]; linarith [hok.2]
        · refine Or.inr ?_
          rw [if_neg (not_le.mpr hz), hwid, ← hvid]
          exact hdead

/-- Invariant of the whole damage loop. -/
theorem applyDamageEvents_invariant (units : List CUnit) (events : List (Nat × ℚ))
    (hev : ∀ ev ∈ events, 0 ≤ ev.2)
    (hinit : ∀ u ∈ units, 0 < u.health ∧ u.health ≤ u.max_health) :
    ∀ u ∈ (applyDamageEvents units events).1,
      (0 < u.health ∧ u.health ≤ u.max_health) ∨
        u.id ∈ (applyDamageEvents units events).2 := by
  unfold applyDamageEvents
  suffices hgen : ∀ (evs : List (Nat × ℚ)) (st : List CUnit × List Nat),
      (∀ ev ∈ evs, 0 ≤ ev.2) →
      (∀ u ∈ st.1, (0 < u.health ∧ u.health ≤ u.max_health) ∨ u.id ∈ st.2) →
      ∀ u ∈ (evs.foldl applyOneDamage st).1,
        (0 < u.health ∧ u.health ≤ u.max_health) ∨
          u.id ∈ (evs.foldl applyOneDamage st).2 by
    intro u hu
    exact hgen events (units, []) hev (fun v hv => Or.inl (hinit v hv)) u hu
  intro evs
  induction evs with
  | nil => intro st _ hst u hu; exact hst u hu
  | cons ev rest ih =>
    intro st hevs hst u hu
    simp only [List.foldl_cons] at hu ⊢
    exact ih (applyOneDamage st ev)
      (fun e he => hevs e (List.mem_cons_of_mem ev he))
      (applyOneDamage_invariant st ev (hevs ev (List.mem_cons_self ev rest)) hst) u hu

/-- C3: if every unit enters the tick alive (`0 < health ≤ max_health`) and
the tick delta is non-negative, then after the combat step every surviving
unit satisfies `0 ≤ health ≤ max_health` (indeed `0 < health`): healing is
capped at `max_health`, and every unit driven to `health ≤ 0` by the queued
damage events is on the death list and despawned at the end of the step. -/
theorem health_bounds (registry : List (Nat × Vec2)) (pylonPositions : List Vec2)
    (delta : ℚ) (units : List CUnit)
    (hd : 0 ≤ delta)
    (hinv : ∀ u ∈ units, 0 < u.health ∧ u.health ≤ u.max_health) :
    (∀ u ∈ unit_combat_system registry pylonPositions delta units,
      0 ≤ u.health ∧ 0 < u.health ∧ u.health ≤ u.max_health) ∧
    (∀ u ∈ (combatDamageStage registry pylonPositions delta units).1,
      u.health ≤ 0 → u.id ∈ (combatDamageStage registry pylonPositions delta units).2) ∧
    unit_combat_system registry pylonPositions delta units =
      (combatDamageStage registry pylonPositions delta units).1.filter
        (fun u => !decide (u.id ∈ (combatDamageStage registry pylonPositions delta units).2))
        := by
  have hstage : ∀ u ∈ (combatDamageStage registry pylonPositions delta units).1,
      (0 < u.health ∧ u.health ≤ u.max_health) ∨
        u.id ∈ (combatDamageStage registry pylonPositions delta units).2 := by
    unfold combatDamageStage
    apply applyDamageEvents_invariant
    · apply combatPass_events_nonneg
      intro e
      exact pylonBonusOf_nonneg _ _ _ e
    · exact combatPass_units_health _ _ _ delta units hd hinv
  refine ⟨?_, ?_, rfl⟩
  · intro u hu
    unfold unit_combat_system at hu
    simp only [List.mem_filter, Bool.not_eq_true', decide_eq_false_iff_not] at hu
    obtain ⟨hmem, hnotdead⟩ := hu
    rcases hstage u hmem with hok | hdead
    · exact ⟨le_of_lt hok.1, hok.1, hok.2⟩
    · exact absurd hdead hnotdead
  · intro u hmem hh
    rcases hstage u hmem with hok | hdead
    · exact absurd hh (not_le.mpr hok.1)
    · exact hdead

/-- Witness for `health_bounds`: the two-unit duel at distance 200 (one shot
each, `45 → 39`). -/
theorem health_bounds_witness :
    ((0 : ℚ) ≤ 7 / 10 ∧
      (∀ u ∈ [CUnit.mk 1 0 (0, 0) 45 45 ⟨0, 7 / 10⟩,
              CUnit.mk 2 1 (200, 0) 45 45 ⟨0, 7 / 10⟩],
        0 < u.health ∧ u.health ≤ u.max_health)) ∧
    ((∀ u ∈ unit_combat_system [] [] (7 / 10)
        [CUnit.mk 1 0 (0, 0) 45 45 ⟨0, 7 / 10⟩,
         CUnit.mk 2 1 (200, 0) 45 45 ⟨0, 7 / 10⟩],
      0 ≤ u.health ∧ 0 < u.health ∧ u.health ≤ u.max_health) ∧
    (∀ u ∈ (combatDamageStage [] [] (7 / 10)
        [CUnit.mk 1 0 (0, 0) 45 45 ⟨0, 7 / 10⟩,
         CUnit.mk 2 1 (200, 0) 45 45 ⟨0, 7 / 10⟩]).1,
      u.health ≤ 0 →
        u.id ∈ (combatDamageStage [] [] (7 / 10)
          [CUnit.mk 1 0 (0, 0) 45 45 ⟨0, 7 / 10⟩,
           CUnit.mk 2 1 (200, 0) 45 45 ⟨0, 7 / 10⟩]).2) ∧
    unit_combat_system [] [] (7 / 10)
        [CUnit.mk 1 0 (0, 0) 45 45 ⟨0, 7 / 10⟩,
         CUnit.mk 2 1 (200, 0) 45 45 ⟨0, 7 / 10⟩] =
      (combatDamageStage [] [] (7 / 10)
        [CUnit.mk 1 0 (0, 0) 45 45 ⟨0, 7 / 10⟩,
         CUnit.mk 2 1 (200, 0) 45 45 ⟨0, 7 / 10⟩]).1.filter
        (fun u => !decide (u.id ∈ (combatDamageStage [] [] (7 / 10)
          [CUnit.mk 1 0 (0, 0) 45 45 ⟨0, 7 / 10⟩,
           CUnit.mk 2 1 (200, 0) 45 45 ⟨0, 7 / 10⟩]).2))) := by
  have hinv : ∀ u ∈ [CUnit.mk 1 0 (0, 0) 45 45 ⟨0, 7 / 10⟩,
      CUnit.mk 2 1 (200, 0) 45 45 ⟨0, 7 / 10⟩],
      0 < u.health ∧ u.health ≤ u.max_health := by
    intro u hu
    rcases List.mem_cons.mp hu with rfl | hu
    · constructor <;> norm_num
    · rcases List.mem_cons.mp hu with rfl | hu
      · constructor <;> norm_num
      · simp at hu
  exact ⟨⟨by norm_num, hinv⟩,
    health_bounds [] [] (7 / 10)
      [CUnit.mk 1 0 (0, 0) 45 45 ⟨0, 7 / 10⟩,
       CUnit.mk 2 1 (200, 0) 45 45 ⟨0, 7 / 10⟩] (by norm_num) hinv⟩

theorem nearestFold_spec (pos : Vec2) :
    ∀ (l : List Snap) (acc : Option (Nat × Vec2)) (t : Nat × Vec2),
      l.foldl
        (fun best s =>
          match best with
          | none => some (s.1, s.2.2)
          | some b =>
            if dist2 s.2.2 pos < dist2 b.2 pos then some (s.1, s.2.2) else best)
        acc = some t →
      (acc = some t ∨ ∃ s ∈ l, (s.1, s.2.2) = t) ∧
      (∀ b, acc = some b → dist2 t.2 pos ≤ dist2 b.2 pos) ∧
      (∀ s ∈ l, dist2 t.2 pos ≤ dist2 s.2.2 pos) := by
  intro l
  induction l with
  | nil =>
    intro acc t h
    simp only [List.foldl_nil] at h
    refine ⟨Or.inl h, ?_, ?_⟩
    · intro b hb
      rw [h] at hb
      injection hb with hb
      rw [hb]
    · intro s hs
      simp at hs
  | cons s l ih =>
    intro acc t h
    simp only [List.foldl_cons] at h
    cases acc with
    | none =>
      obtain ⟨h1, h2, h3⟩ := ih (some (s.1, s.2.2)) t h
      have hts : dist2 t.2 pos ≤ dist2 s.2.2 pos := h2 (s.1, s.2.2) rfl
      refine ⟨?_, ?_, ?_⟩
      · rcases h1 with h1 | ⟨s', hs', ht'⟩
        · exact Or.inr ⟨s, List.mem_cons_self s l, (Option.some.inj h1)⟩
        · exact Or.inr ⟨s', List.mem_cons_of_mem s hs', ht'⟩
      · intro b hb
        exact absurd hb (by simp)
      · intro s' hs'
        rcases List.mem_cons.mp hs' with rfl | hs'
        · exact hts
        · exact h3 s' hs'
    | some b0 =>
      by_cases hlt : dist2 s.2.2 pos < dist2 b0.2 pos
      · simp only [if_pos hlt] at h
        obtain ⟨h1, h2, h3⟩ := ih (some (s.1, s.2.2)) t h
        have hts : dist2 t.2 pos ≤ dist2 s.2.2 pos := h2 (s.1, s.2.2) rfl
        refine ⟨?_, ?_, ?_⟩
        · rcases h1 with h1 | ⟨s', hs', ht'⟩
          · exact Or.inr ⟨s, List.mem_cons_self s l, (Option.some.inj h1)⟩
          · exact Or.inr ⟨s', List.mem_cons_of_mem s hs', ht'⟩
        · intro b hb
          injection hb with hb
          rw [← hb]
          linarith
        · intro s' hs'
          rcases List.mem_cons.mp hs' with rfl | hs'
          · exact hts
          · exact h3 s' hs'
      · simp only [if_neg hlt] at h
        obtain ⟨h1, h2, h3⟩ := ih (some b0) t h
        have htb : dist2 t.2 pos ≤ dist2 b0.2 pos := h2 b0 rfl
        refine ⟨?_, ?_, ?_⟩
        · rcases h1 with h1 | ⟨s', hs', ht'⟩
          · exact Or.inl h1
          · exact Or.inr ⟨s', List.mem_cons_of_mem s hs', ht'⟩
        · intro b hb
          injection hb with hb
          rw [← hb]
          exact htb
        · intro s' hs'
          rcases List.mem_cons.mp hs' with rfl | hs'
          · exact le_trans htb (le_of_not_lt hlt)
          · exact h3 s' hs'

/-- The nearest-enemy selection really picks an enemy at minimal snapshot
distance (ties resolved; the returned pair is some enemy's `(id, pos)`). -/
theorem nearestEnemy_spec (snap : List Snap) (player : Nat) (pos : Vec2)
    (t : Nat × Vec2) (h : nearestEnemy snap player pos = some t) :
    (∃ s ∈ snap, s.2.1 ≠ player ∧ (s.1, s.2.2) = t) ∧
    ∀ s ∈ snap, s.2.1 ≠ player → dist2 t.2 pos ≤ dist2 s.2.2 pos := by
  unfold nearestEnemy at h
  obtain ⟨h1, -, h3⟩ :=
    nearestFold_spec pos (snap.filter fun s => s.2.1 ≠ player) none t h
  constructor
  · rcases h1 with h1 | ⟨s, hs, hst⟩
    · exact absurd h1 (by simp)
    · simp only [List.mem_filter, decide_eq_true_eq] at hs
      exact ⟨s, hs.1, hs.2, hst⟩
  · intro s hs hne
    exact h3 s (List.mem_filter.mpr ⟨hs, by simpa using hne⟩)

theorem suppliedEntryStep_extensive (snap : List Snap) (adj : List (Nat × Nat))
    (entry : Nat × Vec2) (conn : Finset Nat) :
    conn ⊆ suppliedEntryStep snap adj entry conn := by
  unfold suppliedEntryStep
  exact Finset.Subset.trans Finset.subset_union_left
    (floodIter_extensive snap adj entry.1 snap.length _)

theorem suppliedAll_disjoint (snap : List Snap) (adj : List (Nat × Nat)) :
    ∀ (registry : List (Nat × Vec2)) (conn : Finset Nat),
      (∀ c ∈ (suppliedAll snap adj registry conn).2, Disjoint c conn) ∧
      List.Pairwise Disjoint (suppliedAll snap adj registry conn).2 := by
  intro registry
  induction registry with
  | nil =>
    intro conn
    constructor
    · intro c hc
      simp [suppliedAll] at hc
    · simp [suppliedAll]
  | cons entry rest ih =>
    intro conn
    obtain ⟨ihdisj, ihpair⟩ := ih (suppliedEntryStep snap adj entry conn)
    have hsub : conn ⊆ suppliedEntryStep snap adj entry conn :=
      suppliedEntryStep_extensive snap adj entry conn
    have hcompsub : suppliedEntryStep snap adj entry conn \ conn ⊆
        suppliedEntryStep snap adj entry conn := Finset.sdiff_subset
    constructor
    · intro c hc
      simp only [suppliedAll] at hc
      by_cases hemp : suppliedEntryStep snap adj entry conn \ conn = ∅
      · rw [if_pos hemp] at hc
        exact Disjoint.mono_right hsub (ihdisj c hc)
      · rw [if_neg hemp] at hc
        rcases List.mem_cons.mp hc with rfl | hc
        · exact Finset.sdiff_disjoint
        · exact Disjoint.mono_right hsub (ihdisj c hc)
    · simp only [suppliedAll]
      by_cases hemp : suppliedEntryStep snap adj entry conn \ conn = ∅
      · rw [if_pos hemp]
        exact ihpair
      · rw [if_neg hemp]
        refine List.Pairwise.cons ?_ ihpair
        intro c hc
        exact (Disjoint.mono_right hcompsub (ihdisj c hc)).symm

theorem find?_of_disjoint :
    ∀ (comps : List (Finset Nat)) (c : Finset Nat) (e : Nat),
      List.Pairwise Disjoint comps → c ∈ comps → e ∈ c →
      comps.find? (fun c2 => decide (e ∈ c2)) = some c := by
  intro comps
  induction comps with
  | nil =>
    intro c e _ hc _
    simp at hc
  | cons c0 rest ih =>
    intro c e hpair hc he
    rcases List.mem_cons.mp hc with rfl | hc
    · exact List.find?_cons_of_pos _ (by simpa using he)
    · have hd : Disjoint c0 c := (List.pairwise_cons.mp hpair).1 c hc
      have hne : e ∉ c0 := Finset.disjoint_right.mp hd he
      rw [List.find?_cons_of_neg _ (by simpa using hne)]
      exact ih c e (List.pairwise_cons.mp hpair).2 hc he

/-- C4: a unit queues a damage event iff its nearest enemy (by snapshot
distance; an enemy at minimal distance over the whole snapshot) exists
within `LASER_RANGE` and the attack timer elapsed this tick; the event's
damage is `LASER_DAMAGE · m` with
`m = 1 + connections·SUPPORT_DAMAGE_BONUS + component_bonus` when the unit
is supplied and `m = 1` otherwise; firing resets the timer to the
`LASER_COOLDOWN` period; and the component bonus is
`PYLON_DAMAGE_BONUS · k` with `k` the number of the component's members
within `PYLON_RADIUS` of any pylon, the same value for every member of the
component. -/
theorem combat_fire_rule (snap : List Snap) (connSet : Finset Nat)
    (bonusOf : Nat → ℚ) (delta : ℚ) (u : CUnit)
    (pylonPositions : List Vec2) (registry : List (Nat × Vec2)) :
    ((combatUnitStep snap connSet bonusOf delta u).2.isSome = true ↔
      ∃ t, nearestEnemy snap u.player u.pos = some t ∧
        dist2 t.2 u.pos ≤ LASER_RANGE ^ 2 ∧
        (u.attack_timer.tickRepeating delta).2 = true) ∧
    (∀ t, nearestEnemy snap u.player u.pos = some t →
      dist2 t.2 u.pos ≤ LASER_RANGE ^ 2 →
      (u.attack_timer.tickRepeating delta).2 = true →
      (combatUnitStep snap connSet bonusOf delta u).2 =
        some (t.1, LASER_DAMAGE *
          (if u.id ∈ connSet
            then 1 + connCount snap u.id * SUPPORT_DAMAGE_BONUS + bonusOf u.id
            else 1)) ∧
      (combatUnitStep snap connSet bonusOf delta u).1.attack_timer =
        ⟨0, LASER_COOLDOWN⟩) ∧
    (∀ t, nearestEnemy snap u.player u.pos = some t →
      (∃ s ∈ snap, s.2.1 ≠ u.player ∧ (s.1, s.2.2) = t) ∧
      ∀ s ∈ snap, s.2.1 ≠ u.player → dist2 t.2 u.pos ≤ dist2 s.2.2 u.pos) ∧
    (∀ c ∈ supply_components snap (support_links snap) registry, ∀ e ∈ c,
      pylonBonusOf snap pylonPositions
          (supply_components snap (support_links snap) registry) e =
        PYLON_DAMAGE_BONUS *
          ((c.filter fun e2 =>
            entityNearPylon snap pylonPositions e2 = true).card : ℚ)) := by
  refine ⟨?_, ?_, ?_, ?_⟩
  · constructor
    · intro hsome
      cases hne : nearestEnemy snap u.player u.pos with
      | none =>
        rw [combatUnitStep_eq_none snap connSet bonusOf delta u hne] at hsome
        simp at hsome
      | some t =>
        by_cases hfire : dist2 t.2 u.pos ≤ LASER_RANGE ^ 2 ∧
            (u.attack_timer.tickRepeating delta).2 = true
        · exact ⟨t, rfl, hfire.1, hfire.2⟩
        · rw [combatUnitStep_eq_nofire snap connSet bonusOf delta u t hne hfire] at hsome
          simp at hsome
    · rintro ⟨t, hne, hd, htk⟩
      rw [combatUnitStep_eq_fire snap connSet bonusOf delta u t hne ⟨hd, htk⟩]
      simp
  · intro t hne hd htk
    rw [combatUnitStep_eq_fire snap connSet bonusOf delta u t hne ⟨hd, htk⟩]
    exact ⟨rfl, rfl⟩
  · intro t hne
    exact nearestEnemy_spec snap u.player u.pos t hne
  · intro c hc e he
    have hdisj := (suppliedAll_disjoint snap (support_links snap) registry ∅).2
    unfold pylonBonusOf
    rw [find?_of_disjoint (supply_components snap (support_links snap) registry)
      c e hdisj hc he]
    rfl

/-- Concrete scenario for the `combat_fire_rule` witness: a friendly laser
at the origin and a lone enemy at `(200, 0)`. -/
def w4Snap : List Snap := [(1, 0, ((0 : ℚ), (0 : ℚ))), (2, 1, (200, 0))]

def w4Unit : CUnit := CUnit.mk 1 0 (0, 0) 45 45 ⟨0, 7 / 10⟩

/-- Witness for `combat_fire_rule` at the concrete duel scenario. -/
theorem combat_fire_rule_witness :
    ((combatUnitStep w4Snap ∅ (fun _ => 0) (7 / 10) w4Unit).2.isSome = true ↔
      ∃ t, nearestEnemy w4Snap w4Unit.player w4Unit.pos = some t ∧
        dist2 t.2 w4Unit.pos ≤ LASER_RANGE ^ 2 ∧
        (w4Unit.attack_timer.tickRepeating (7 / 10)).2 = true) ∧
    (∀ t, nearestEnemy w4Snap w4Unit.player w4Unit.pos = some t →
      dist2 t.2 w4Unit.pos ≤ LASER_RANGE ^ 2 →
      (w4Unit.attack_timer.tickRepeating (7 / 10)).2 = true →
      (combatUnitStep w4Snap ∅ (fun _ => 0) (7 / 10) w4Unit).2 =
        some (t.1, LASER_DAMAGE *
          (if w4Unit.id ∈ (∅ : Finset Nat)
            then 1 + connCount w4Snap w4Unit.id * SUPPORT_DAMAGE_BONUS + 0
            else 1)) ∧
      (combatUnitStep w4Snap ∅ (fun _ => 0) (7 / 10) w4Unit).1.attack_timer =
        ⟨0, LASER_COOLDOWN⟩) ∧
    (∀ t, nearestEnemy w4Snap w4Unit.player w4Unit.pos = some t →
      (∃ s ∈ w4Snap, s.2.1 ≠ w4Unit.player ∧ (s.1, s.2.2) = t) ∧
      ∀ s ∈ w4Snap, s.2.1 ≠ w4Unit.player →
        dist2 t.2 w4Unit.pos ≤ dist2 s.2.2 w4Unit.pos) ∧
    (∀ c ∈ supply_components w4Snap (support_links w4Snap) [], ∀ e ∈ c,
      pylonBonusOf w4Snap [] (supply_components w4Snap (support_links w4Snap) []) e =
        PYLON_DAMAGE_BONUS *
          ((c.filter fun e2 => entityNearPylon w4Snap [] e2 = true).card : ℚ)) :=
  combat_fire_rule w4Snap ∅ (fun _ => 0) (7 / 10) w4Unit [] []

/-! ## Unit spawner (C7) — `tick_spawn_timers`, `average_unit_position`

`rng.gen_f32(-20.0..=20.0)` is `genF32` on the raw sample stream; the two
jitter draws are made in argument order (`jx` first, then `jy`, as Rust
evaluates `Vec2::new`'s arguments left to right).  A timer with no matching
registry entry ticks but spawns nothing (`registry.entries.get(idx)`). -/

inductive UnitKind
  | Laser
deriving DecidableEq, Repr

def UnitKind.health : UnitKind → ℚ
  | .Laser => 45

def UnitKind.attack_cooldown : UnitKind → ℚ
  | .Laser => LASER_COOLDOWN

structure NewUnit where
  player : Nat
  pos : Vec2
  rally_target : Vec2
  health : ℚ
  max_health : ℚ
  velocity : Vec2
  attack_timer : Timer
deriving DecidableEq, Repr

/-- `average_unit_position`: sum and count the player's units, return
`sum / count` when the count is positive. -/
def average_unit_position (player : Nat) (units : List (Nat × Vec2)) : Option Vec2 :=
  let s := units.foldl
    (fun acc v => if v.1 = player then (vadd acc.1 v.2, acc.2 + 1) else acc)
    ((((0 : ℚ), (0 : ℚ)) : Vec2), (0 : ℚ))
  if 0 < s.2 then some (smul (1 / s.2) s.1) else none

/-- One spawn: draw `jx` then `jy`, place at `anchor + (jx, jy)`, rally at
the centroid of the player's current units (else the anchor), fresh stats
from `spawn_unit`.  Returns the new unit and the advanced rng cursor. -/
def spawnOne (u : Nat → ℚ) (cursor : Nat) (entry : Nat × Vec2)
    (units : List (Nat × Vec2)) : NewUnit × Nat :=
  let jx := genF32 u cursor (-20) 20
  let jy := genF32 u jx.2 (-20) 20
  let start := vadd entry.2 (jx.1, jy.1)
  let rally := (average_unit_position entry.1 units).getD entry.2
  (⟨entry.1, start, rally, UnitKind.Laser.health, UnitKind.Laser.health,
    (0, 0), ⟨0, UnitKind.Laser.attack_cooldown⟩⟩, jy.2)

/-- The `for (idx, timer)` loop of `tick_spawn_timers`: every timer ticks;
a timer that just finished and has a registry entry spawns one unit,
consuming two rng draws. -/
def tickSpawnLoop (delta : ℚ) (u : Nat → ℚ) (units : List (Nat × Vec2)) :
    List Timer → List (Nat × Vec2) → Nat →
      List Timer × List NewUnit × Nat
  | [], _, cursor => ([], [], cursor)
  | t :: ts, registry, cursor =>
    let tk := t.tickRepeating delta
    match registry, tk.2 with
    | entry :: rest, true =>
      let sp := spawnOne u cursor entry units
      let r := tickSpawnLoop delta u units ts rest sp.2
      (tk.1 :: r.1, sp.1 :: r.2.1, r.2.2)
    | _ :: rest, false =>
      let r := tickSpawnLoop delta u units ts rest cursor
      (tk.1 :: r.1, r.2.1, r.2.2)
    | [], _ =>
      let r := tickSpawnLoop delta u units ts [] cursor
      (tk.1 :: r.1, r.2.1, r.2.2)

/-- `tick_spawn_timers`: returns the advanced timers, the spawned units in
index order, and the advanced rng cursor. -/
def tick_spawn_timers (delta : ℚ) (u : Nat → ℚ) (cursor : Nat)
    (timers : List Timer) (registry : List (Nat × Vec2))
    (units : List (Nat × Vec2)) : List Timer × List NewUnit × Nat :=
  tickSpawnLoop delta u units timers registry cursor

/-- Spec-side: the registry entries whose timers just finished, in index
order. -/
def firedEntries (delta : ℚ) (timers : List Timer)
    (registry : List (Nat × Vec2)) : List (Nat × Vec2) :=
  ((timers.zip registry).filter fun p => (p.1.tickRepeating delta).2).map Prod.snd

/-- Spec-side: spawn one unit per fired entry, two rng draws each. -/
def spawnSeq (u : Nat → ℚ) (units : List (Nat × Vec2)) :
    List (Nat × Vec2) → Nat → List NewUnit
  | [], _ => []
  | entry :: rest, c => (spawnOne u c entry units).1 :: spawnSeq u units rest (c + 2)

/-- Spec-side sum of the positions of a player's units. -/
def sumPos : List Vec2 → Vec2
  | [] => (0, 0)
  | v :: rest => vadd v (sumPos rest)

/-- Spec-side centroid of a player's units. -/
def centroidSpec (player : Nat) (units : List (Nat × Vec2)) : Vec2 :=
  let m := units.filter fun v => v.1 = player
  smul (1 / (m.length : ℚ)) (sumPos (m.map Prod.snd))

theorem vadd_assoc (a b c : Vec2) : vadd (vadd a b) c = vadd a (vadd b c) := by
  unfold vadd
  simp [add_assoc]

theorem vadd_zero_left (x : Vec2) : vadd (((0 : ℚ), (0 : ℚ)) : Vec2) x = x := by
  cases x
  simp [vadd]

theorem avgFold (player : Nat) :
    ∀ (l : List (Nat × Vec2)) (a : Vec2) (c : ℚ),
      l.foldl
        (fun acc v => if v.1 = player then (vadd acc.1 v.2, acc.2 + 1) else acc)
        (a, c) =
      (vadd a (sumPos ((l.filter fun v => v.1 = player).map Prod.snd)),
        c + (((l.filter fun v => v.1 = player).length : ℕ) : ℚ)) := by
  intro l
  induction l with
  | nil =>
    intro a c
    simp [sumPos, vadd]
  | cons v rest ih =>
    intro a c
    by_cases hv : v.1 = player
    · have hfilter : List.filter (fun v => decide (v.1 = player)) (v :: rest) =
          v :: List.filter (fun v => decide (v.1 = player)) rest :=
        List.filter_cons_of_pos (by simp [hv])
      simp only [List.foldl_cons, if_pos hv, hfilter, List.map_cons, sumPos,
        List.length_cons]
      rw [ih]
      simp only [Prod.mk.injEq]
      constructor
      · rw [vadd_assoc]
      · push_cast
        ring
    · have hfilter : List.filter (fun v => decide (v.1 = player)) (v :: rest) =
          List.filter (fun v => decide (v.1 = player)) rest :=
        List.filter_cons_of_neg (by simp [hv])
      simp only [List.foldl_cons, if_neg hv, hfilter]
      exact ih a c

theorem average_unit_position_eq (player : Nat) (units : List (Nat × Vec2)) :
    average_unit_position player units =
      if (units.filter fun v => v.1 = player) = [] then none
      else some (centroidSpec player units) := by
  unfold average_unit_position centroidSpec
  rw [avgFold player units ((0 : ℚ), (0 : ℚ)) 0]
  by_cases hm : List.filter (fun v => decide (v.1 = player)) units = []
  · simp [hm]
  · have hlen : 0 < (List.filter (fun v => decide (v.1 = player)) units).length :=
      List.length_pos.mpr hm
    have hpos : (0 : ℚ) <
        0 + ((List.filter (fun v => decide (v.1 = player)) units).length : ℚ) := by
      rw [zero_add]
      exact_mod_cast hlen
    rw [if_pos hpos, if_neg hm, vadd_zero_left, zero_add]

theorem tickSpawnLoop_spec (delta : ℚ) (u : Nat → ℚ) (units : List (Nat × Vec2)) :
    ∀ (timers : List Timer) (registry : List (Nat × Vec2)) (cursor : Nat),
      tickSpawnLoop delta u units timers registry cursor =
        (timers.map (fun t => (t.tickRepeating delta).1),
         spawnSeq u units (firedEntries delta timers registry) cursor,
         cursor + 2 * (firedEntries delta timers registry).length) := by
  intro timers
  induction timers with
  | nil =>
    intro registry cursor
    simp [tickSpawnLoop, firedEntries, spawnSeq]
  | cons t ts ih =>
    intro registry cursor
    cases registry with
    | nil =>
      have hfired : firedEntries delta (t :: ts) [] = [] := by
        simp [firedEntries]
      cases htk : (t.tickRepeating delta).2 with
      | false =>
        simp only [tickSpawnLoop, htk, ih, hfired]
        have hzip : firedEntries delta ts [] = [] := by simp [firedEntries]
        simp [hzip, spawnSeq]
      | true =>
        simp only [tickSpawnLoop, htk, ih, hfired]
        have hzip : firedEntries delta ts [] = [] := by simp [firedEntries]
        simp [hzip, spawnSeq]
    | cons entry rest =>
      cases htk : (t.tickRepeating delta).2 with
      | true =>
        have hfired : firedEntries delta (t :: ts) (entry :: rest) =
            entry :: firedEntries delta ts rest := by
          simp [firedEntries, List.filter_cons, htk]
        simp only [tickSpawnLoop, htk, ih, hfired, spawnSeq, List.map_cons,
          List.length_cons]
        have hc : (spawnOne u cursor entry units).2 = cursor + 2 := rfl
        rw [hc]
        simp only [Prod.mk.injEq, true_and]
        omega
      | false =>
        have hfired : firedEntries delta (t :: ts) (entry :: rest) =
            firedEntries delta ts rest := by
          simp [firedEntries, List.filter_cons, htk]
        simp only [tickSpawnLoop, htk, ih, hfired, List.map_cons]

/-- C7: when spawn timer `i` finishes, exactly two rng floats (`jx` at the
cursor, then `jy` at the next index) are drawn from `[-20, 20]`; the new
unit spawns at `anchor + (jx, jy)` with `health = max_health = 45`, zero
velocity and a fresh `0.7 s` attack timer; its rally target is the centroid
of the player's current units when at least one exists, else the anchor.
Over a whole tick every timer advances, the spawned units are exactly those
of the just-finished `(timer, registry entry)` pairs in index order, and
the rng cursor advances by two per spawn. -/
theorem spawn_rule (delta : ℚ) (u : Nat → ℚ) (c0 : Nat) (timers : List Timer)
    (registry : List (Nat × Vec2)) (units : List (Nat × Vec2))
    (hu : ∀ k, 0 ≤ u k ∧ u k ≤ 1) :
    (∀ (entry : Nat × Vec2) (c : Nat),
      (spawnOne u c entry units).1.player = entry.1 ∧
      (spawnOne u c entry units).1.pos =
        vadd entry.2 (-20 + u c * 40, -20 + u (c + 1) * 40) ∧
      (-20 ≤ -20 + u c * 40 ∧ -20 + u c * 40 ≤ 20) ∧
      (-20 ≤ -20 + u (c + 1) * 40 ∧ -20 + u (c + 1) * 40 ≤ 20) ∧
      (spawnOne u c entry units).2 = c + 2 ∧
      (spawnOne u c entry units).1.health = 45 ∧
      (spawnOne u c entry units).1.max_health = 45 ∧
      (spawnOne u c entry units).1.velocity = (0, 0) ∧
      (spawnOne u c entry units).1.attack_timer = ⟨0, LASER_COOLDOWN⟩ ∧
      ((units.filter fun v => v.1 = entry.1) = [] →
        (spawnOne u c entry units).1.rally_target = entry.2) ∧
      ((units.filter fun v => v.1 = entry.1) ≠ [] →
        (spawnOne u c entry units).1.rally_target = centroidSpec entry.1 units)) ∧
    (tick_spawn_timers delta u c0 timers registry units).1 =
      timers.map (fun t => (t.tickRepeating delta).1) ∧
    (tick_spawn_timers delta u c0 timers registry units).2.1 =
      spawnSeq u units (firedEntries delta timers registry) c0 ∧
    (tick_spawn_timers delta u c0 timers registry units).2.2 =
      c0 + 2 * (firedEntries delta timers registry).length := by
  have hloop := tickSpawnLoop_spec delta u units timers registry c0
  refine ⟨?_, ?_, ?_, ?_⟩
  · intro entry c
    obtain ⟨hc0, hc1⟩ := hu c
    obtain ⟨hd0, hd1⟩ := hu (c + 1)
    refine ⟨rfl, ?_, ⟨by linarith, by linarith⟩, ⟨by linarith, by linarith⟩,
      rfl, rfl, rfl, rfl, rfl, ?_, ?_⟩
    · show vadd entry.2 ((genF32 u c (-20) 20).1, (genF32 u (c + 1) (-20) 20).1) = _
      unfold genF32
      norm_num
    · intro hempty
      show (average_unit_position entry.1 units).getD entry.2 = entry.2
      rw [average_unit_position_eq, if_pos hempty]
      rfl
    · intro hne
      show (average_unit_position entry.1 units).getD entry.2 = centroidSpec entry.1 units
      rw [average_unit_position_eq, if_neg hne]
      rfl
  · rw [show tick_spawn_timers delta u c0 timers registry units =
      tickSpawnLoop delta u units timers registry c0 from rfl, hloop]
  · rw [show tick_spawn_timers delta u c0 timers registry units =
      tickSpawnLoop delta u units timers registry c0 from rfl, hloop]
  · rw [show tick_spawn_timers delta u c0 timers registry units =
      tickSpawnLoop delta u units timers registry c0 from rfl, hloop]

/-- Concrete inputs for the `spawn_rule` witness. -/
def w7Stream : Nat → ℚ := fun _ => 1 / 2

def w7Timers : List Timer := [⟨0, 1⟩]

def w7Registry : List (Nat × Vec2) := [(0, (100, 0))]

def w7Units : List (Nat × Vec2) := [(0, ((0 : ℚ), (0 : ℚ))), (1, (50, 0))]

/-- Witness for `spawn_rule`: a single one-second timer finishing on a
one-second tick. -/
theorem spawn_rule_witness :
    (∀ k : Nat, 0 ≤ w7Stream k ∧ w7Stream k ≤ 1) ∧
    ((∀ (entry : Nat × Vec2) (c : Nat),
      (spawnOne w7Stream c entry w7Units).1.player = entry.1 ∧
      (spawnOne w7Stream c entry w7Units).1.pos =
        vadd entry.2 (-20 + w7Stream c * 40, -20 + w7Stream (c + 1) * 40) ∧
      (-20 ≤ -20 + w7Stream c * 40 ∧ -20 + w7Stream c * 40 ≤ 20) ∧
      (-20 ≤ -20 + w7Stream (c + 1) * 40 ∧ -20 + w7Stream (c + 1) * 40 ≤ 20) ∧
      (spawnOne w7Stream c entry w7Units).2 = c + 2 ∧
      (spawnOne w7Stream c entry w7Units).1.health = 45 ∧
      (spawnOne w7Stream c entry w7Units).1.max_health = 45 ∧
      (spawnOne w7Stream c entry w7Units).1.velocity = (0, 0) ∧
      (spawnOne w7Stream c entry w7Units).1.attack_timer = ⟨0, LASER_COOLDOWN⟩ ∧
      ((w7Units.filter fun v => v.1 = entry.1) = [] →
        (spawnOne w7Stream c entry w7Units).1.rally_target = entry.2) ∧
      ((w7Units.filter fun v => v.1 = entry.1) ≠ [] →
        (spawnOne w7Stream c entry w7Units).1.rally_target =
          centroidSpec entry.1 w7Units)) ∧
    (tick_spawn_timers 1 w7Stream 0 w7Timers w7Registry w7Units).1 =
      w7Timers.map (fun t => (t.tickRepeating 1).1) ∧
    (tick_spawn_timers 1 w7Stream 0 w7Timers w7Registry w7Units).2.1 =
      spawnSeq w7Stream w7Units (firedEntries 1 w7Timers w7Registry) 0 ∧
    (tick_spawn_timers 1 w7Stream 0 w7Timers w7Registry w7Units).2.2 =
      0 + 2 * (firedEntries 1 w7Timers w7Registry).length) := by
  have hu : ∀ k : Nat, 0 ≤ w7Stream k ∧ w7Stream k ≤ 1 := by
    intro k
    unfold w7Stream
    norm_num
  exact ⟨hu, spawn_rule 1 w7Stream 0 w7Timers w7Registry w7Units hu⟩

end CoreGame
